import Mathlib

/-!
# Google Workspace directory tables: listing and get hydrates

A shallow embedding of the hydrate functions of
`googleworkspace/table_googleworkspace_*.go`.

* The remote directory service is an arbitrary `Service`: every endpoint is a
  function of the number of remote calls issued so far and of the request, so
  that any behaviour of the remote side (any pages, any failures) is covered.
* The effects of a hydrate (credential lookups, remote calls, rows pushed to
  the sink, the remaining-row counter) are made explicit in `World`.
* `for { ... }` pagination loops take a fuel argument; a run that has not yet
  returned yields `none` together with the world reached so far.
-/

set_option linter.dupNamespace false

namespace GoogleWorkspace

/-! ## Data model -/

/-- Error values returned by the credential provider and by remote calls. -/
abbrev Err := String

/-- The fields of `admin.User` that the hydrates read. -/
structure User where
  Id : String
  PrimaryEmail : String
deriving DecidableEq, Repr

/-- The fields of `admin.Group` that the hydrates read. -/
structure Group where
  Id : String
  Email : String
  Name : String
deriving DecidableEq, Repr

/-- The record `admin.Member` returned by `Members.List` and `Members.Get`. -/
structure Member where
  Id : String
  Email : String
  Role : String
  MemberType : String
  Status : String
  DeliverySettings : String
  Etag : String
  Kind : String
deriving DecidableEq, Repr

/-- The record `admin.OrgUnit`. -/
structure OrgUnit where
  OrgUnitId : String
  Name : String
  OrgUnitPath : String
deriving DecidableEq, Repr

/-- The record `admin.Token` returned by `Tokens.List` and `Tokens.Get`. -/
structure Token where
  ClientId : String
  Scopes : List String
  Anonymous : Bool
  DisplayText : String
  NativeApp : Bool
  Kind : String
  Etag : String
deriving DecidableEq, Repr

/-- The struct `MemberWithGroup` (member data combined with the group). -/
structure MemberWithGroup where
  GroupKey : String
  Id : String
  Email : String
  Role : String
  MemberType : String
  Status : String
  DeliverySettings : String
  Etag : String
  Kind : String
deriving DecidableEq, Repr

/-- The struct `TokenWithUser` (token data combined with the user). -/
structure TokenWithUser where
  UserKey : String
  PrimaryEmail : String
  ClientId : String
  Scopes : List String
  Anonymous : Bool
  DisplayText : String
  NativeApp : Bool
  Kind : String
  Etag : String
deriving DecidableEq, Repr

/-- A value handed to the row sink or returned by a get hydrate
(`interface{}` in the source). -/
inductive Row where
  | user (u : User)
  | group (g : Group)
  | orgUnit (o : OrgUnit)
  | member (m : MemberWithGroup)
  | token (t : TokenWithUser)
deriving DecidableEq, Repr

/-! ## Requests and responses of the directory API -/

/-- The call `service.Users.List()` with its parameters. -/
structure UsersListCall where
  customer : String
  fields : String
  maxResults : Option Int
  query : Option String
  pageToken : String
deriving DecidableEq, Repr

/-- The call `service.Groups.List()` with its parameters. -/
structure GroupsListCall where
  customer : String
  fields : String
  maxResults : Option Int
  pageToken : String
deriving DecidableEq, Repr

/-- The call `service.Members.List(groupKey)` with its parameters. -/
structure MembersListCall where
  groupKey : String
  fields : String
  maxResults : Option Int
  pageToken : String
deriving DecidableEq, Repr

/-- The call `service.Orgunits.List(customerId)` with its parameters. -/
structure OrgunitsListCall where
  customerId : String
  fields : String
  orgUnitPath : Option String
  orgUnitType : Option String
deriving DecidableEq, Repr

/-- The call `service.Tokens.List(userKey)`. -/
structure TokensListCall where
  userKey : String
  fields : String
deriving DecidableEq, Repr

/-- The call `service.Groups.Get(groupId)`. -/
structure GroupsGetCall where
  groupKey : String
  fields : String
deriving DecidableEq, Repr

/-- The call `service.Members.Get(groupKey, memberKey)`. -/
structure MembersGetCall where
  groupKey : String
  memberKey : String
  fields : String
deriving DecidableEq, Repr

/-- The call `service.Orgunits.Get(customerId, orgUnitPath)`. -/
structure OrgunitsGetCall where
  customerId : String
  orgUnitPath : String
  fields : String
deriving DecidableEq, Repr

/-- The call `service.Tokens.Get(userKey, clientId)`. -/
structure TokensGetCall where
  userKey : String
  clientId : String
  fields : String
deriving DecidableEq, Repr

/-- The call `service.Users.Get(userKey)`. -/
structure UsersGetCall where
  userKey : String
  fields : String
deriving DecidableEq, Repr

/-- One remote call, as recorded in the trace of a run. -/
inductive Call where
  | usersList (c : UsersListCall)
  | groupsList (c : GroupsListCall)
  | membersList (c : MembersListCall)
  | orgunitsList (c : OrgunitsListCall)
  | tokensList (c : TokensListCall)
  | groupsGet (c : GroupsGetCall)
  | membersGet (c : MembersGetCall)
  | orgunitsGet (c : OrgunitsGetCall)
  | tokensGet (c : TokensGetCall)
  | usersGet (c : UsersGetCall)
deriving DecidableEq, Repr

/-- Response `admin.Users` of a user listing. -/
structure Users where
  Users : List User
  NextPageToken : String
deriving DecidableEq, Repr

/-- Response `admin.Groups` of a group listing. -/
structure Groups where
  Groups : List Group
  NextPageToken : String
deriving DecidableEq, Repr

/-- Response `admin.Members` of a member listing. -/
structure Members where
  Members : List Member
  NextPageToken : String
deriving DecidableEq, Repr

/-- Response `admin.OrgUnits` of an organizational unit listing. -/
structure OrgUnits where
  OrganizationUnits : List OrgUnit
deriving DecidableEq, Repr

/-- Response `admin.Tokens` of a token listing. -/
structure Tokens where
  Items : List Token
deriving DecidableEq, Repr

/-- The collaborators outside the repository: the credential provider
`AdminService` (`none` is success) and the endpoints of the directory API.
Each endpoint sees the number of remote calls issued before it and the
request, so a service may answer the same request differently over time. -/
structure Service where
  adminService : Option Err
  usersList : Nat → UsersListCall → Except Err Users
  groupsList : Nat → GroupsListCall → Except Err Groups
  membersList : Nat → MembersListCall → Except Err Members
  orgunitsList : Nat → OrgunitsListCall → Except Err OrgUnits
  tokensList : Nat → TokensListCall → Except Err Tokens
  groupsGet : Nat → GroupsGetCall → Except Err Group
  membersGet : Nat → MembersGetCall → Except Err Member
  orgunitsGet : Nat → OrgunitsGetCall → Except Err OrgUnit
  tokensGet : Nat → TokensGetCall → Except Err Token
  usersGet : Nat → UsersGetCall → Except Err User

/-! ## The query engine host -/

/-- The read-only part of `plugin.QueryData`: `EqualsQualString` (the empty
string when the qualifier is absent) and `QueryContext.Limit`. -/
structure QueryData where
  EqualsQualString : String → String
  Limit : Option Int

/-- The effects of a run: how often the credential provider was asked, the
remote calls issued (oldest first), the remaining-row counter of the host
(`none` when the query has no limit) and the rows pushed to the sink (oldest
first). -/
structure World where
  credentialCalls : Nat
  calls : List Call
  rowsRemaining : Option Int
  rows : List Row
deriving DecidableEq, Repr

/-- The world in which the host starts a hydrate of query `d`. -/
def World.init (d : QueryData) : World :=
  { credentialCalls := 0, calls := [], rowsRemaining := d.Limit, rows := [] }

/-- The host's `d.RowsRemaining(ctx)`: the counter, or `math.MaxInt32` when
the query has no limit. -/
def RowsRemaining (s : World) : Int :=
  match s.rowsRemaining with
  | none => 2147483647
  | some r => r

/-- The host's `d.StreamListItem(ctx, item)`: when `RowsRemaining` is already
zero the item is dropped and the counter is left as it is; otherwise the row is
pushed to the sink and the counter is decremented once. -/
def StreamListItem (s : World) (item : Row) : World :=
  if RowsRemaining s = 0 then s
  else { s with rows := s.rows ++ [item], rowsRemaining := s.rowsRemaining.map (fun r => r - 1) }

/-- The call `AdminService(ctx, d)` of the credential provider. -/
def AdminService (svc : Service) (s : World) : World × Option Err :=
  ({ s with credentialCalls := s.credentialCalls + 1 }, svc.adminService)

/-- Record a remote call in the trace. -/
def logCall (s : World) (c : Call) : World :=
  { s with calls := s.calls ++ [c] }

/-- What a hydrate returns: `(interface{}, error)`. -/
abbrev Hydrated := Option Row × Option Err

/-- The loop
`for _, x := range xs { d.StreamListItem(ctx, mk x); if d.RowsRemaining(ctx) == 0 { leave } }`
shared by all listers; the flag tells whether the loop was left early. -/
def streamRange {α : Type} (mk : α → Row) : List α → World → World × Bool
  | [], s => (s, false)
  | x :: xs, s =>
    let s1 := StreamListItem s (mk x)
    if RowsRemaining s1 = 0 then (s1, true) else streamRange mk xs s1

/-! ## Synthetic join records -/

/-- The literal `&MemberWithGroup{GroupKey: groupKey, Id: member.Id, ...}`
written in `listGroupMembers`, `getGroupMember` and `listAllGroupMembers`. -/
def memberWithGroup (groupKey : String) (member : Member) : MemberWithGroup :=
  { GroupKey := groupKey
    Id := member.Id
    Email := member.Email
    Role := member.Role
    MemberType := member.MemberType
    Status := member.Status
    DeliverySettings := member.DeliverySettings
    Etag := member.Etag
    Kind := member.Kind }

/-- The literal `&TokenWithUser{UserKey: ..., PrimaryEmail: ..., ClientId: token.ClientId, ...}`
written in `listAllTokens` and `getToken`. -/
def tokenWithUser (userKey primaryEmail : String) (token : Token) : TokenWithUser :=
  { UserKey := userKey
    PrimaryEmail := primaryEmail
    ClientId := token.ClientId
    Scopes := token.Scopes
    Anonymous := token.Anonymous
    DisplayText := token.DisplayText
    NativeApp := token.NativeApp
    Kind := token.Kind
    Etag := token.Etag }

/-! ## Response-field projections (`googleapi.Field`) -/

def userListFields : String :=
  "users(id,primaryEmail,name,isAdmin,isDelegatedAdmin,suspended,suspensionReason,archived,agreedToTerms,changePasswordAtNextLogin,includeInGlobalAddressList,ipWhitelisted,isMailboxSetup,lastLoginTime,creationTime,deletionTime,orgUnitPath,customerId,etag,hashFunction,password,recoveryEmail,recoveryPhone,thumbnailPhotoEtag,thumbnailPhotoUrl,addresses,aliases,emails,externalIds,gender,ims,keywords,languages,locations,notes,organizations,phones,posixAccounts,relations,sshPublicKeys,websites,customSchemas)"

def groupListFields : String :=
  "groups(id,email,name,description,directMembersCount,adminCreated,aliases,nonEditableAliases,etag,kind)"

def groupGetFields : String :=
  "id,email,name,description,directMembersCount,adminCreated,aliases,nonEditableAliases,etag,kind"

def memberListFields : String :=
  "members(id,email,role,type,status,delivery_settings,etag,kind)"

def memberGetFields : String :=
  "id,email,role,type,status,delivery_settings,etag,kind"

def orgUnitListFields : String :=
  "organizationUnits(orgUnitId,name,description,orgUnitPath,parentOrgUnitId,parentOrgUnitPath,blockInheritance,etag,kind)"

def orgUnitGetFields : String :=
  "orgUnitId,name,description,orgUnitPath,parentOrgUnitId,parentOrgUnitPath,blockInheritance,etag,kind"

def tokenListFields : String :=
  "items(clientId,scopes,anonymous,displayText,nativeApp,kind,etag)"

def tokenGetFields : String :=
  "clientId,scopes,anonymous,displayText,nativeApp,kind,etag"

/-! ## `table_googleworkspace_groups.go` -/

/-- The request built in `listGroups`:
`service.Groups.List().Customer("my_customer").Fields(fields).MaxResults(200)`. -/
def listGroupsReq : GroupsListCall :=
  { customer := "my_customer", fields := groupListFields, maxResults := some 200, pageToken := "" }

/-- The `for { resp, err := req.Do(); ... }` loop of `listGroups`. -/
def listGroupsLoop (svc : Service) : Nat → GroupsListCall → World → World × Option Hydrated
  | 0, _, s => (s, none)
  | fuel + 1, req, s =>
    match svc.groupsList s.calls.length req with
    | .error err => (logCall s (.groupsList req), some (none, some err))
    | .ok resp =>
      match streamRange Row.group resp.Groups (logCall s (.groupsList req)) with
      | (s2, true) => (s2, some (none, none))
      | (s2, false) =>
        if resp.NextPageToken = "" then (s2, some (none, none))
        else listGroupsLoop svc fuel { req with pageToken := resp.NextPageToken } s2

/-- The hydrate `listGroups`. -/
def listGroups (fuel : Nat) (svc : Service) (_d : QueryData) (s : World) : World × Option Hydrated :=
  match AdminService svc s with
  | (s1, some err) => (s1, some (none, some err))
  | (s1, none) => listGroupsLoop svc fuel listGroupsReq s1

/-- The hydrate `getGroup`. -/
def getGroup (svc : Service) (d : QueryData) (s : World) : World × Hydrated :=
  let groupId := d.EqualsQualString "id"
  if groupId = "" then (s, (none, none))
  else
    match AdminService svc s with
    | (s1, some err) => (s1, (none, some err))
    | (s1, none) =>
      let req : GroupsGetCall := { groupKey := groupId, fields := groupGetFields }
      match svc.groupsGet s1.calls.length req with
      | .error err => (logCall s1 (.groupsGet req), (none, some err))
      | .ok group => (logCall s1 (.groupsGet req), (some (.group group), none))

/-! ## `table_googleworkspace_group_members.go` -/

/-- The request `service.Members.List(groupKey).Fields(fields).MaxResults(200)`
built in `listGroupMembers` and, per group, in `listAllGroupMembers`. -/
def membersListReq (groupKey : String) : MembersListCall :=
  { groupKey := groupKey, fields := memberListFields, maxResults := some 200, pageToken := "" }

/-- The `for { resp, err := req.Do(); ... }` loop of `listGroupMembers`. -/
def listGroupMembersLoop (svc : Service) (groupKey : String) :
    Nat → MembersListCall → World → World × Option Hydrated
  | 0, _, s => (s, none)
  | fuel + 1, req, s =>
    match svc.membersList s.calls.length req with
    | .error err => (logCall s (.membersList req), some (none, some err))
    | .ok resp =>
      match streamRange (fun member => Row.member (memberWithGroup groupKey member)) resp.Members
          (logCall s (.membersList req)) with
      | (s2, true) => (s2, some (none, none))
      | (s2, false) =>
        if resp.NextPageToken = "" then (s2, some (none, none))
        else listGroupMembersLoop svc groupKey fuel { req with pageToken := resp.NextPageToken } s2

/-- The hydrate `listGroupMembers`. -/
def listGroupMembers (fuel : Nat) (svc : Service) (d : QueryData) (s : World) :
    World × Option Hydrated :=
  let groupKey := d.EqualsQualString "group_key"
  if groupKey = "" then (s, some (none, none))
  else
    match AdminService svc s with
    | (s1, some err) => (s1, some (none, some err))
    | (s1, none) => listGroupMembersLoop svc groupKey fuel (membersListReq groupKey) s1

/-- The hydrate `getGroupMember`. -/
def getGroupMember (svc : Service) (d : QueryData) (s : World) : World × Hydrated :=
  let groupKey := d.EqualsQualString "group_key"
  let memberKey := d.EqualsQualString "member_key"
  if groupKey = "" ∨ memberKey = "" then (s, (none, none))
  else
    match AdminService svc s with
    | (s1, some err) => (s1, (none, some err))
    | (s1, none) =>
      let req : MembersGetCall :=
        { groupKey := groupKey, memberKey := memberKey, fields := memberGetFields }
      match svc.membersGet s1.calls.length req with
      | .error err => (logCall s1 (.membersGet req), (none, some err))
      | .ok member =>
        (logCall s1 (.membersGet req), (some (.member (memberWithGroup groupKey member)), none))

/-- The request `service.Groups.List().Customer("my_customer").Fields("groups(id,email)")`
of `listAllGroupMembers`. -/
def allGroupsReq : GroupsListCall :=
  { customer := "my_customer", fields := "groups(id,email)", maxResults := none, pageToken := "" }

/-- The loop `for _, group := range groupsResp.Groups { ... }` of
`listAllGroupMembers`. -/
def listAllGroupMembersLoop (svc : Service) : List Group → World → World
  | [], s => s
  | group :: rest, s =>
    if RowsRemaining s = 0 then s
    else
      let membersReq := membersListReq group.Email
      match svc.membersList s.calls.length membersReq with
      | .error _ => listAllGroupMembersLoop svc rest (logCall s (.membersList membersReq))
      | .ok membersResp =>
        listAllGroupMembersLoop svc rest
          (streamRange (fun member => Row.member (memberWithGroup group.Email member))
            membersResp.Members (logCall s (.membersList membersReq))).1

/-- The hydrate `listAllGroupMembers`. -/
def listAllGroupMembers (fuel : Nat) (svc : Service) (d : QueryData) (s : World) :
    World × Option Hydrated :=
  let groupKey := d.EqualsQualString "group_key"
  if groupKey ≠ "" then listGroupMembers fuel svc d s
  else
    match AdminService svc s with
    | (s1, some err) => (s1, some (none, some err))
    | (s1, none) =>
      match svc.groupsList s1.calls.length allGroupsReq with
      | .error err => (logCall s1 (.groupsList allGroupsReq), some (none, some err))
      | .ok groupsResp =>
        (listAllGroupMembersLoop svc groupsResp.Groups (logCall s1 (.groupsList allGroupsReq)),
          some (none, none))

/-! ## `table_googleworkspace_orgunits.go` -/

/-- The local `customerId` of `listOrgUnits` and `getOrgUnit`: the
`customer_id` qualifier, or `"my_customer"` when it is empty. -/
def orgUnitCustomerId (d : QueryData) : String :=
  if d.EqualsQualString "customer_id" ≠ "" then d.EqualsQualString "customer_id"
  else "my_customer"

/-- The request built in `listOrgUnits`, with the optional `OrgUnitPath` and
`Type` parameters. -/
def listOrgUnitsReq (d : QueryData) : OrgunitsListCall :=
  { customerId := orgUnitCustomerId d
    fields := orgUnitListFields
    orgUnitPath :=
      if d.EqualsQualString "org_unit_path" ≠ "" then some (d.EqualsQualString "org_unit_path")
      else none
    orgUnitType :=
      if d.EqualsQualString "type" ≠ "" then some (d.EqualsQualString "type") else none }

/-- The hydrate `listOrgUnits` (one remote page, no pagination loop). -/
def listOrgUnits (svc : Service) (d : QueryData) (s : World) : World × Option Hydrated :=
  match AdminService svc s with
  | (s1, some err) => (s1, some (none, some err))
  | (s1, none) =>
    let req := listOrgUnitsReq d
    match svc.orgunitsList s1.calls.length req with
    | .error err => (logCall s1 (.orgunitsList req), some (none, some err))
    | .ok resp =>
      ((streamRange Row.orgUnit resp.OrganizationUnits (logCall s1 (.orgunitsList req))).1,
        some (none, none))

/-- The hydrate `getOrgUnit`. -/
def getOrgUnit (svc : Service) (d : QueryData) (s : World) : World × Hydrated :=
  let customerId := orgUnitCustomerId d
  let orgUnitPath := d.EqualsQualString "org_unit_path"
  if orgUnitPath = "" then (s, (none, none))
  else
    match AdminService svc s with
    | (s1, some err) => (s1, (none, some err))
    | (s1, none) =>
      let req : OrgunitsGetCall :=
        { customerId := customerId, orgUnitPath := orgUnitPath, fields := orgUnitGetFields }
      match svc.orgunitsGet s1.calls.length req with
      | .error err => (logCall s1 (.orgunitsGet req), (none, some err))
      | .ok resp => (logCall s1 (.orgunitsGet req), (some (.orgUnit resp), none))

/-! ## `table_googleworkspace_tokens_list.go` -/

/-- The request
`service.Users.List().Customer("my_customer").Fields(userFields).MaxResults(500)`
of `listAllTokens`. -/
def allUsersReq : UsersListCall :=
  { customer := "my_customer", fields := "users(id,primaryEmail)", maxResults := some 500,
    query := none, pageToken := "" }

/-- The request `service.Tokens.List(user.PrimaryEmail).Fields(tokenFields)`. -/
def tokensListReq (userKey : String) : TokensListCall :=
  { userKey := userKey, fields := tokenListFields }

/-- The loop `for _, user := range usersResp.Users { ... }` of `listAllTokens`. -/
def listAllTokensLoop (svc : Service) : List User → World → World
  | [], s => s
  | user :: rest, s =>
    if RowsRemaining s = 0 then s
    else
      let tokensReq := tokensListReq user.PrimaryEmail
      match svc.tokensList s.calls.length tokensReq with
      | .error _ => listAllTokensLoop svc rest (logCall s (.tokensList tokensReq))
      | .ok tokensResp =>
        listAllTokensLoop svc rest
          (streamRange
            (fun token => Row.token (tokenWithUser user.PrimaryEmail user.PrimaryEmail token))
            tokensResp.Items (logCall s (.tokensList tokensReq))).1

/-- The hydrate `listAllTokens`. -/
def listAllTokens (svc : Service) (_d : QueryData) (s : World) : World × Option Hydrated :=
  match AdminService svc s with
  | (s1, some err) => (s1, some (none, some err))
  | (s1, none) =>
    match svc.usersList s1.calls.length allUsersReq with
    | .error err => (logCall s1 (.usersList allUsersReq), some (none, some err))
    | .ok usersResp =>
      (listAllTokensLoop svc usersResp.Users (logCall s1 (.usersList allUsersReq)),
        some (none, none))

/-- The hydrate `getToken`: the token fetch, then the user fetch for the
primary email. -/
def getToken (svc : Service) (d : QueryData) (s : World) : World × Hydrated :=
  let userKey := d.EqualsQualString "user_key"
  let clientId := d.EqualsQualString "client_id"
  if userKey = "" ∨ clientId = "" then (s, (none, none))
  else
    match AdminService svc s with
    | (s1, some err) => (s1, (none, some err))
    | (s1, none) =>
      let req : TokensGetCall :=
        { userKey := userKey, clientId := clientId, fields := tokenGetFields }
      match svc.tokensGet s1.calls.length req with
      | .error err => (logCall s1 (.tokensGet req), (none, some err))
      | .ok token =>
        let s2 := logCall s1 (.tokensGet req)
        let userReq : UsersGetCall := { userKey := userKey, fields := "primaryEmail" }
        match svc.usersGet s2.calls.length userReq with
        | .error err => (logCall s2 (.usersGet userReq), (none, some err))
        | .ok user =>
          (logCall s2 (.usersGet userReq),
            (some (.token (tokenWithUser userKey user.PrimaryEmail token)), none))

/-! ## `table_googleworkspace_directory_users.go` -/

/-- The method `(*UsersListCall).Query` of the generated directory client: it
sets the single `query` URL parameter, replacing an earlier value. -/
def UsersListCall.Query (c : UsersListCall) (query : String) : UsersListCall :=
  { c with query := some query }

/-- The method `(*UsersListCall).Pages` of the generated directory client:
`for { x, err := c.Do(); if err != nil { return err }; if err := f(x); err != nil { return err };
if x.NextPageToken == "" { return nil }; c.PageToken(x.NextPageToken) }`.
The callback can stop the iteration only by returning an error. -/
def UsersListCall.Pages (svc : Service) (f : Users → World → World × Option Err) :
    Nat → UsersListCall → World → World × Option (Option Err)
  | 0, _, s => (s, none)
  | fuel + 1, c, s =>
    match svc.usersList s.calls.length c with
    | .error err => (logCall s (.usersList c), some (some err))
    | .ok x =>
      match f x (logCall s (.usersList c)) with
      | (s2, some err) => (s2, some (some err))
      | (s2, none) =>
        if x.NextPageToken = "" then (s2, some none)
        else UsersListCall.Pages svc f fuel { c with pageToken := x.NextPageToken } s2

/-- The local `maxResults` of `listDirectoryUsers`: `100`, lowered to the
query limit when that is smaller. -/
def usersMaxResults (d : QueryData) : Int :=
  match d.Limit with
  | none => 100
  | some limit => if limit < 100 then limit else 100

/-- The request built in `listDirectoryUsers`: the base call, then `Query`
for `primary_email` and `Query` for `org_unit_path`, each when non-empty. -/
def listDirectoryUsersReq (d : QueryData) : UsersListCall :=
  let resp : UsersListCall :=
    { customer := "my_customer", fields := userListFields,
      maxResults := some (usersMaxResults d), query := none, pageToken := "" }
  let resp :=
    if d.EqualsQualString "primary_email" ≠ "" then
      resp.Query ("email:" ++ d.EqualsQualString "primary_email")
    else resp
  if d.EqualsQualString "org_unit_path" ≠ "" then
    resp.Query ("orgUnitPath:" ++ d.EqualsQualString "org_unit_path")
  else resp

/-- The callback passed to `Pages` in `listDirectoryUsers`: it streams the
users of the page and returns `nil` both when the page is finished and when
`RowsRemaining` reaches zero. -/
def listDirectoryUsersPage (page : Users) (s : World) : World × Option Err :=
  match streamRange Row.user page.Users s with
  | (s1, true) => (s1, none)
  | (s1, false) => (s1, none)

/-- The hydrate `listDirectoryUsers`. -/
def listDirectoryUsers (fuel : Nat) (svc : Service) (d : QueryData) (s : World) :
    World × Option Hydrated :=
  match AdminService svc s with
  | (s1, some err) => (s1, some (none, some err))
  | (s1, none) =>
    match UsersListCall.Pages svc listDirectoryUsersPage fuel (listDirectoryUsersReq d) s1 with
    | (s2, none) => (s2, none)
    | (s2, some (some err)) => (s2, some (none, some err))
    | (s2, some none) => (s2, some (none, none))

/-! ## The entry points, by kind -/

/-- The listing entry points. -/
inductive Lister where
  | listDirectoryUsers
  | listGroups
  | listGroupMembers
  | listOrgUnits
  | listAllGroupMembers
  | listAllTokens
deriving DecidableEq, Repr

/-- Run a listing entry point. -/
def Lister.run : Lister → Nat → Service → QueryData → World → World × Option Hydrated
  | .listDirectoryUsers, fuel, svc, d, s => GoogleWorkspace.listDirectoryUsers fuel svc d s
  | .listGroups, fuel, svc, d, s => GoogleWorkspace.listGroups fuel svc d s
  | .listGroupMembers, fuel, svc, d, s => GoogleWorkspace.listGroupMembers fuel svc d s
  | .listOrgUnits, _, svc, d, s => GoogleWorkspace.listOrgUnits svc d s
  | .listAllGroupMembers, fuel, svc, d, s => GoogleWorkspace.listAllGroupMembers fuel svc d s
  | .listAllTokens, _, svc, d, s => GoogleWorkspace.listAllTokens svc d s

/-- The get operations. -/
inductive Getter where
  | getGroup
  | getGroupMember
  | getOrgUnit
  | getToken
deriving DecidableEq, Repr

/-- Run a get operation. -/
def Getter.run : Getter → Service → QueryData → World → World × Hydrated
  | .getGroup, svc, d, s => GoogleWorkspace.getGroup svc d s
  | .getGroupMember, svc, d, s => GoogleWorkspace.getGroupMember svc d s
  | .getOrgUnit, svc, d, s => GoogleWorkspace.getOrgUnit svc d s
  | .getToken, svc, d, s => GoogleWorkspace.getToken svc d s

/-- The `KeyColumns` of the `Get` configuration of each table:
`SingleColumn("id")`, `AllColumns({"group_key", "member_key"})`,
`SingleColumn("org_unit_path")`, `AllColumns({"user_key", "client_id"})`. -/
def Getter.KeyColumns : Getter → List String
  | .getGroup => ["id"]
  | .getGroupMember => ["group_key", "member_key"]
  | .getOrgUnit => ["org_unit_path"]
  | .getToken => ["user_key", "client_id"]

/-! ## Column transforms of the table definitions -/

/-- The transform `transform.FromQual(name)` of the plugin SDK: the column
shows the value of the named equality qualifier of the query (empty when the
query has none), whatever the hydrated item is. -/
def FromQual (name : String) (d : QueryData) (_item : Row) : String :=
  d.EqualsQualString name

/-- The column `group_key` of `tableGoogleWorkspaceGroupMembers`, declared
with `Transform: transform.FromQual("group_key")`. -/
def groupMembers_group_key : QueryData → Row → String :=
  FromQual "group_key"

/-! ## Predicates used in the statements -/

/-- The rows in the sink together with the remaining budget stay equal to
`total`, and the remaining budget is not negative. -/
def WithinBudget (total : Int) (s : World) : Prop :=
  ∃ r : Int, s.rowsRemaining = some r ∧ 0 ≤ r ∧ (s.rows.length : Int) + r = total

/-- The rows the fan-out over groups is specified to emit: for each group, in
the order of the group listing, the join of the group's email with every
member (in returned order) of a child fetch that succeeded; a group whose
child fetch failed contributes no row. The child fetch of the first group is
remote call number `base`, that of the next one `base + 1`, and so on. -/
def specGroupFanOut (svc : Service) : Nat → List Group → List Row
  | _, [] => []
  | base, group :: rest =>
    (match svc.membersList base (membersListReq group.Email) with
      | .ok resp => resp.Members.map (fun member => Row.member (memberWithGroup group.Email member))
      | .error _ => [])
      ++ specGroupFanOut svc (base + 1) rest

/-- The rows the fan-out over users is specified to emit, as `specGroupFanOut`
with the user's primary email as the parent key. -/
def specUserFanOut (svc : Service) : Nat → List User → List Row
  | _, [] => []
  | base, user :: rest =>
    (match svc.tokensList base (tokensListReq user.PrimaryEmail) with
      | .ok resp =>
        resp.Items.map
          (fun token => Row.token (tokenWithUser user.PrimaryEmail user.PrimaryEmail token))
      | .error _ => [])
      ++ specUserFanOut svc (base + 1) rest

/-- The record `mw` carries parent key `groupKey` and, in every other field,
the value of the member record `member`. -/
def IsMemberJoin (groupKey : String) (member : Member) (mw : MemberWithGroup) : Prop :=
  mw.GroupKey = groupKey ∧ mw.Id = member.Id ∧ mw.Email = member.Email ∧
  mw.Role = member.Role ∧ mw.MemberType = member.MemberType ∧ mw.Status = member.Status ∧
  mw.DeliverySettings = member.DeliverySettings ∧ mw.Etag = member.Etag ∧ mw.Kind = member.Kind

/-- The record `tw` carries parent key `userKey` and, in every field that a
token record has, the value of the token record `token`. -/
def IsTokenJoin (userKey : String) (token : Token) (tw : TokenWithUser) : Prop :=
  tw.UserKey = userKey ∧ tw.ClientId = token.ClientId ∧ tw.Scopes = token.Scopes ∧
  tw.Anonymous = token.Anonymous ∧ tw.DisplayText = token.DisplayText ∧
  tw.NativeApp = token.NativeApp ∧ tw.Kind = token.Kind ∧ tw.Etag = token.Etag

/-- The row is a member join under parent `groupKey`: its child record is a
member that the service returned to a member listing of that very group. -/
def MemberRowUnder (svc : Service) (groupKey : String) (row : Row) : Prop :=
  ∃ (i : Nat) (req : MembersListCall) (resp : Members) (member : Member) (mw : MemberWithGroup),
    req.groupKey = groupKey ∧ svc.membersList i req = .ok resp ∧ member ∈ resp.Members ∧
    row = .member mw ∧ IsMemberJoin groupKey member mw

/-- The row is a token join under the user `userKey`: its child record is a
token that the service returned to a token listing of that very user, and its
primary email is the user's. -/
def TokenRowUnder (svc : Service) (userKey : String) (row : Row) : Prop :=
  ∃ (i : Nat) (req : TokensListCall) (resp : Tokens) (token : Token) (tw : TokenWithUser),
    req.userKey = userKey ∧ svc.tokensList i req = .ok resp ∧ token ∈ resp.Items ∧
    row = .token tw ∧ IsTokenJoin userKey token tw ∧ tw.PrimaryEmail = userKey


/-! ## Concrete services and queries -/

/-- A service with working credentials on which every remote call fails. -/
def unavailable : Service :=
  { adminService := none
    usersList := fun _ _ => .error "unavailable"
    groupsList := fun _ _ => .error "unavailable"
    membersList := fun _ _ => .error "unavailable"
    orgunitsList := fun _ _ => .error "unavailable"
    tokensList := fun _ _ => .error "unavailable"
    groupsGet := fun _ _ => .error "unavailable"
    membersGet := fun _ _ => .error "unavailable"
    orgunitsGet := fun _ _ => .error "unavailable"
    tokensGet := fun _ _ => .error "unavailable"
    usersGet := fun _ _ => .error "unavailable" }

/-- A query without qualifiers and without a limit. -/
def plainQuery : QueryData :=
  { EqualsQualString := fun _ => "", Limit := none }

/-- A query without qualifiers and with the row limit `n`. -/
def limitQuery (n : Int) : QueryData :=
  { EqualsQualString := fun _ => "", Limit := some n }

/-- A directory of two users served one user per page. -/
def twoPageUsers : Service :=
  { unavailable with
    usersList := fun _ c =>
      if c.pageToken = "" then
        .ok { Users := [{ Id := "1", PrimaryEmail := "a@x.com" }], NextPageToken := "p2" }
      else .ok { Users := [{ Id := "2", PrimaryEmail := "b@x.com" }], NextPageToken := "" } }

/-- A service that knows the token of client `c1` of user `a@x.com`. -/
def tokenService : Service :=
  { unavailable with
    tokensGet := fun _ c =>
      .ok { ClientId := c.clientId, Scopes := ["openid"], Anonymous := false,
            DisplayText := "App", NativeApp := false, Kind := "admin#directory#token",
            Etag := "t1" }
    usersGet := fun _ c => .ok { Id := "1", PrimaryEmail := c.userKey } }

/-- The query `user_key = "a@x.com" and client_id = "c1"`. -/
def tokenQuery : QueryData :=
  { EqualsQualString := fun k =>
      if k = "user_key" then "a@x.com" else if k = "client_id" then "c1" else ""
    Limit := none }

/-- The query `id = "g1"`. -/
def groupQuery : QueryData :=
  { EqualsQualString := fun k => if k = "id" then "g1" else "", Limit := none }

/-- The member `m1@x.com`. -/
def member1 : Member :=
  { Id := "m1", Email := "m1@x.com", Role := "OWNER", MemberType := "USER", Status := "ACTIVE",
    DeliverySettings := "ALL_MAIL", Etag := "e1", Kind := "admin#directory#member" }

/-- A member record whose own id and email are absent. -/
def member2 : Member :=
  { Id := "", Email := "", Role := "MEMBER", MemberType := "CUSTOMER", Status := "",
    DeliverySettings := "", Etag := "e2", Kind := "admin#directory#member" }

/-- Two groups: `g1@x.com` with two members, and `g2@x.com` whose member
listing is refused. -/
def twoGroups : Service :=
  { unavailable with
    groupsList := fun _ _ =>
      .ok { Groups := [{ Id := "g1", Email := "g1@x.com", Name := "G1" },
                       { Id := "g2", Email := "g2@x.com", Name := "G2" }],
            NextPageToken := "" }
    membersList := fun _ c =>
      if c.groupKey = "g1@x.com" then .ok { Members := [member1, member2], NextPageToken := "" }
      else .error "forbidden" }

/-- The token of client `c1`. -/
def token1 : Token :=
  { ClientId := "c1", Scopes := ["openid"], Anonymous := false, DisplayText := "App",
    NativeApp := false, Kind := "admin#directory#token", Etag := "t1" }

/-- Two users, `a@x.com` and `b@x.com`, each with the token of client `c1`. -/
def twoUsers : Service :=
  { unavailable with
    usersList := fun _ _ =>
      .ok { Users := [{ Id := "1", PrimaryEmail := "a@x.com" },
                      { Id := "2", PrimaryEmail := "b@x.com" }],
            NextPageToken := "" }
    tokensList := fun _ _ => .ok { Items := [token1] } }

/-- The query `primary_email = "a@x.com" and org_unit_path = "/Sales"`. -/
def bothFilters : QueryData :=
  { EqualsQualString := fun k =>
      if k = "primary_email" then "a@x.com" else if k = "org_unit_path" then "/Sales" else ""
    Limit := none }

/-- The query `primary_email = "a@x.com"` with the row limit 10. -/
def emailFilter : QueryData :=
  { EqualsQualString := fun k => if k = "primary_email" then "a@x.com" else ""
    Limit := some 10 }

/-- The query `user_key = "a@x.com"`. -/
def userKeyQuery : QueryData :=
  { EqualsQualString := fun k => if k = "user_key" then "a@x.com" else "", Limit := none }

/-- The query `group_key = "g1@x.com"`. -/
def groupKeyQuery : QueryData :=
  { EqualsQualString := fun k => if k = "group_key" then "g1@x.com" else "", Limit := none }

/-- The query string `query` contains the term `term`. -/
def containsTerm (query term : String) : Prop :=
  term.data <:+: query.data

instance (query term : String) : Decidable (containsTerm query term) :=
  inferInstanceAs (Decidable (term.data <:+: query.data))

/-! ## Page chains that end in a failure -/

/-- The group listing answers the requests of a pagination that starts with
remote call number `idx` and request `req` with the pages `pages`, each with a
non-empty continuation token, and fails the next request with `err`. -/
def GroupPagesThenError (svc : Service) (err : Err) : Nat → GroupsListCall → List Groups → Prop
  | idx, req, [] => svc.groupsList idx req = .error err
  | idx, req, page :: rest =>
    svc.groupsList idx req = .ok page ∧ page.NextPageToken ≠ "" ∧
      GroupPagesThenError svc err (idx + 1) { req with pageToken := page.NextPageToken } rest

/-- The member listing answers the requests of a pagination that starts with
remote call number `idx` and request `req` with the pages `pages`, each with a
non-empty continuation token, and fails the next request with `err`. -/
def MemberPagesThenError (svc : Service) (err : Err) : Nat → MembersListCall → List Members → Prop
  | idx, req, [] => svc.membersList idx req = .error err
  | idx, req, page :: rest =>
    svc.membersList idx req = .ok page ∧ page.NextPageToken ≠ "" ∧
      MemberPagesThenError svc err (idx + 1) { req with pageToken := page.NextPageToken } rest

/-- The first page of groups of `groupsThenQuota`. -/
def groupsPage1 : Groups :=
  { Groups := [{ Id := "g1", Email := "g1@x.com", Name := "G1" },
               { Id := "g2", Email := "g2@x.com", Name := "G2" }],
    NextPageToken := "p2" }

/-- A group listing whose first page succeeds and whose second page fails. -/
def groupsThenQuota : Service :=
  { unavailable with
    groupsList := fun _ c => if c.pageToken = "" then .ok groupsPage1 else .error "quota" }

/-! ## Page chains that end with an empty continuation token -/

/-- The group listing answers the requests of a pagination that starts with
remote call number `idx` and request `req` with the pages `pages`, one after
the other, and the last of these pages is the first one whose continuation
token is empty. -/
def GroupPagesComplete (svc : Service) : Nat → GroupsListCall → List Groups → Prop
  | _, _, [] => True
  | idx, req, page :: rest =>
    svc.groupsList idx req = .ok page ∧ (page.NextPageToken = "" ↔ rest = []) ∧
      GroupPagesComplete svc (idx + 1) { req with pageToken := page.NextPageToken } rest

/-- The member listing answers the requests of a pagination that starts with
remote call number `idx` and request `req` with the pages `pages`, one after
the other, and the last of these pages is the first one whose continuation
token is empty. -/
def MemberPagesComplete (svc : Service) : Nat → MembersListCall → List Members → Prop
  | _, _, [] => True
  | idx, req, page :: rest =>
    svc.membersList idx req = .ok page ∧ (page.NextPageToken = "" ↔ rest = []) ∧
      MemberPagesComplete svc (idx + 1) { req with pageToken := page.NextPageToken } rest

/-- The requests that fetch the pages of a chain: the first page with `req`,
every later page with the continuation token returned by the page before. -/
def groupPageRequests (req : GroupsListCall) : List Groups → List GroupsListCall
  | [] => []
  | page :: rest => req :: groupPageRequests { req with pageToken := page.NextPageToken } rest

/-- The requests that fetch the pages of a chain of member pages: the first
page with `req`, every later page with the continuation token returned by the
page before. -/
def memberPageRequests (req : MembersListCall) : List Members → List MembersListCall
  | [] => []
  | page :: rest => req :: memberPageRequests { req with pageToken := page.NextPageToken } rest

/-- The number of pages, of the given sizes, that are fetched until `k + 1`
rows have been taken or the pages have run out. -/
def pagesNeeded : Nat → List Nat → Nat
  | _, [] => 0
  | k, size :: rest => if k < size then 1 else 1 + pagesNeeded (k - size) rest

/-- Users whose token fetch, issued as remote call number `base`, `base + 1`,
and so on, fails or returns no token. -/
def NoTokensFor (svc : Service) : Nat → List User → Prop
  | _, [] => True
  | base, user :: rest =>
    (∀ resp, svc.tokensList base (tokensListReq user.PrimaryEmail) = .ok resp → resp.Items = []) ∧
      NoTokensFor svc (base + 1) rest

/-- A group listing served as two pages, of two groups and of one group. -/
def groupsTwoPages : Service :=
  { unavailable with
    groupsList := fun _ c =>
      if c.pageToken = "" then
        .ok { Groups := [{ Id := "g1", Email := "g1@x.com", Name := "G1" },
                         { Id := "g2", Email := "g2@x.com", Name := "G2" }],
              NextPageToken := "p2" }
      else .ok { Groups := [{ Id := "g3", Email := "g3@x.com", Name := "G3" }],
                 NextPageToken := "" } }

/-- The two pages of `groupsTwoPages`. -/
def twoPages : List Groups :=
  [{ Groups := [{ Id := "g1", Email := "g1@x.com", Name := "G1" },
                { Id := "g2", Email := "g2@x.com", Name := "G2" }],
     NextPageToken := "p2" },
   { Groups := [{ Id := "g3", Email := "g3@x.com", Name := "G3" }], NextPageToken := "" }]

/-- Three users: `a@x.com` without tokens, `b@x.com` with two tokens and
`c@x.com` with one. -/
def threeUsers : Service :=
  { unavailable with
    usersList := fun _ _ =>
      .ok { Users := [{ Id := "1", PrimaryEmail := "a@x.com" },
                      { Id := "2", PrimaryEmail := "b@x.com" },
                      { Id := "3", PrimaryEmail := "c@x.com" }],
            NextPageToken := "" }
    tokensList := fun _ c =>
      if c.userKey = "a@x.com" then .error "notFound"
      else if c.userKey = "b@x.com" then
        .ok { Items := [token1, { token1 with ClientId := "c2" }] }
      else .ok { Items := [token1] } }

/-! ## Basic facts about the host operations -/

@[simp] theorem logCall_rows (s : World) (c : Call) : (logCall s c).rows = s.rows := rfl

@[simp] theorem logCall_rowsRemaining (s : World) (c : Call) :
    (logCall s c).rowsRemaining = s.rowsRemaining := rfl

@[simp] theorem logCall_calls (s : World) (c : Call) : (logCall s c).calls = s.calls ++ [c] := rfl

@[simp] theorem logCall_credentialCalls (s : World) (c : Call) :
    (logCall s c).credentialCalls = s.credentialCalls := rfl

@[simp] theorem RowsRemaining_logCall (s : World) (c : Call) :
    RowsRemaining (logCall s c) = RowsRemaining s := rfl

theorem RowsRemaining_of_none {s : World} (h : s.rowsRemaining = none) :
    RowsRemaining s = 2147483647 := by
  simp [RowsRemaining, h]

theorem RowsRemaining_of_some {s : World} {r : Int} (h : s.rowsRemaining = some r) :
    RowsRemaining s = r := by
  simp [RowsRemaining, h]

@[simp] theorem StreamListItem_calls (s : World) (r : Row) :
    (StreamListItem s r).calls = s.calls := by
  unfold StreamListItem
  split <;> rfl

@[simp] theorem StreamListItem_credentialCalls (s : World) (r : Row) :
    (StreamListItem s r).credentialCalls = s.credentialCalls := by
  unfold StreamListItem
  split <;> rfl

/-- With the budget used up the sink drops the item. -/
theorem StreamListItem_of_zero {s : World} (h : RowsRemaining s = 0) (r : Row) :
    StreamListItem s r = s := by
  simp [StreamListItem, h]

/-- With budget left the sink takes the row and decrements the counter. -/
theorem StreamListItem_of_ne {s : World} (h : RowsRemaining s ≠ 0) (r : Row) :
    StreamListItem s r =
      { s with rows := s.rows ++ [r], rowsRemaining := s.rowsRemaining.map (fun n => n - 1) } := by
  simp [StreamListItem, h]

theorem StreamListItem_rows {s : World} (h : RowsRemaining s ≠ 0) (r : Row) :
    (StreamListItem s r).rows = s.rows ++ [r] := by
  rw [StreamListItem_of_ne h]

theorem StreamListItem_rowsRemaining {s : World} (h : RowsRemaining s ≠ 0) (r : Row) :
    (StreamListItem s r).rowsRemaining = s.rowsRemaining.map (fun n => n - 1) := by
  rw [StreamListItem_of_ne h]

/-! ## The emission loop -/

theorem streamRange_calls {α : Type} (mk : α → Row) (xs : List α) (s : World) :
    (streamRange mk xs s).1.calls = s.calls := by
  induction xs generalizing s with
  | nil => rfl
  | cons x xs ih =>
    simp only [streamRange]
    split
    · simp
    · rw [ih]; simp

theorem streamRange_credentialCalls {α : Type} (mk : α → Row) (xs : List α) (s : World) :
    (streamRange mk xs s).1.credentialCalls = s.credentialCalls := by
  induction xs generalizing s with
  | nil => rfl
  | cons x xs ih =>
    simp only [streamRange]
    split
    · simp
    · rw [ih]; simp

/-- Without a limit the emission loop pushes every item and is never left
early. -/
theorem streamRange_unbounded {α : Type} (mk : α → Row) (xs : List α) (s : World)
    (h : s.rowsRemaining = none) :
    streamRange mk xs s = ({ s with rows := s.rows ++ xs.map mk }, false) := by
  induction xs generalizing s with
  | nil => simp [streamRange]
  | cons x xs ih =>
    have hne : RowsRemaining s ≠ 0 := by rw [RowsRemaining_of_none h]; decide
    have h1 : (StreamListItem s (mk x)).rowsRemaining = none := by
      simp [StreamListItem_rowsRemaining hne, h]
    simp only [streamRange]
    rw [if_neg (by rw [RowsRemaining_of_none h1]; decide), ih _ h1]
    simp [StreamListItem_of_ne hne, h]

/-- The emission loop pushes a prefix of the items, in order. -/
theorem streamRange_rows_prefix {α : Type} (mk : α → Row) (xs : List α) (s : World) :
    ∃ k, k ≤ xs.length ∧ (streamRange mk xs s).1.rows = s.rows ++ (xs.take k).map mk := by
  induction xs generalizing s with
  | nil => exact ⟨0, le_refl _, by simp [streamRange]⟩
  | cons x xs ih =>
    simp only [streamRange]
    by_cases h0 : RowsRemaining s = 0
    · rw [StreamListItem_of_zero h0, if_pos h0]
      exact ⟨0, by simp, by simp⟩
    · split
      · exact ⟨1, by simp, by simp [StreamListItem_rows h0]⟩
      · obtain ⟨k, hk, hrows⟩ := ih (StreamListItem s (mk x))
        exact ⟨k + 1, by simpa using hk, by simp [hrows, StreamListItem_rows h0]⟩

theorem WithinBudget.rows_le {total : Int} {s : World} (h : WithinBudget total s) :
    (s.rows.length : Int) ≤ total := by
  obtain ⟨r, _, hr, hsum⟩ := h
  omega

theorem WithinBudget.logCall {total : Int} {s : World} (h : WithinBudget total s) (c : Call) :
    WithinBudget total (logCall s c) := h

/-- Entered with budget left, the emission loop stays within the budget, and
when it runs to its end there is budget left. -/
theorem streamRange_budget {α : Type} (mk : α → Row) (total : Int) (xs : List α) (s : World)
    (h : WithinBudget total s) (hpos : RowsRemaining s ≠ 0) :
    WithinBudget total (streamRange mk xs s).1 ∧
      ((streamRange mk xs s).2 = false → RowsRemaining (streamRange mk xs s).1 ≠ 0) := by
  induction xs generalizing s with
  | nil => exact ⟨h, fun _ => hpos⟩
  | cons x xs ih =>
    obtain ⟨r, hr, hr0, hsum⟩ := h
    have hrne : r ≠ 0 := by rwa [RowsRemaining_of_some hr] at hpos
    have h1 : WithinBudget total (StreamListItem s (mk x)) := by
      refine ⟨r - 1, by simp [StreamListItem_rowsRemaining hpos, hr], by omega, ?_⟩
      simp only [StreamListItem_rows hpos, List.length_append, List.length_singleton]
      push_cast
      omega
    simp only [streamRange]
    split
    · exact ⟨h1, fun hf => by simp at hf⟩
    · next hne => exact ih _ h1 hne

/-- The emission loop keeps the rows within the budget, also when it is
entered with the budget used up: the sink then drops the item and the loop is
left. -/
theorem streamRange_within {α : Type} (mk : α → Row) (total : Int) (xs : List α) (s : World)
    (h : WithinBudget total s) : WithinBudget total (streamRange mk xs s).1 := by
  by_cases h0 : RowsRemaining s = 0
  · cases xs with
    | nil => exact h
    | cons x xs =>
      simp only [streamRange]
      rw [StreamListItem_of_zero h0, if_pos h0]
      exact h
  · exact (streamRange_budget mk total xs s h h0).1

/-! ## The row budget of the listers that leave their loops at zero -/

theorem listGroupsLoop_budget (svc : Service) (total : Int) (fuel : Nat) (req : GroupsListCall)
    (s : World) (h : WithinBudget total s) (hpos : RowsRemaining s ≠ 0) :
    WithinBudget total (listGroupsLoop svc fuel req s).1 := by
  induction fuel generalizing req s with
  | zero => exact h
  | succ fuel ih =>
    simp only [listGroupsLoop]
    split
    · exact h
    · next resp _ =>
      have hb := streamRange_budget Row.group total resp.Groups (logCall s (.groupsList req)) h hpos
      split
      · next s2 heq => rw [heq] at hb; exact hb.1
      · next s2 heq =>
        rw [heq] at hb
        split
        · exact hb.1
        · exact ih _ s2 hb.1 (hb.2 rfl)

theorem listGroupMembersLoop_budget (svc : Service) (groupKey : String) (total : Int) (fuel : Nat)
    (req : MembersListCall) (s : World) (h : WithinBudget total s) (hpos : RowsRemaining s ≠ 0) :
    WithinBudget total (listGroupMembersLoop svc groupKey fuel req s).1 := by
  induction fuel generalizing req s with
  | zero => exact h
  | succ fuel ih =>
    simp only [listGroupMembersLoop]
    split
    · exact h
    · next resp _ =>
      have hb := streamRange_budget (fun member => Row.member (memberWithGroup groupKey member))
        total resp.Members (logCall s (.membersList req)) h hpos
      split
      · next s2 heq => rw [heq] at hb; exact hb.1
      · next s2 heq =>
        rw [heq] at hb
        split
        · exact hb.1
        · exact ih _ s2 hb.1 (hb.2 rfl)

theorem listAllGroupMembersLoop_budget (svc : Service) (total : Int) (groups : List Group)
    (s : World) (h : WithinBudget total s) :
    WithinBudget total (listAllGroupMembersLoop svc groups s) := by
  induction groups generalizing s with
  | nil => exact h
  | cons group rest ih =>
    simp only [listAllGroupMembersLoop]
    split
    · exact h
    · next hpos =>
      split
      · exact ih _ (h.logCall _)
      · next membersResp _ =>
        exact ih _ (streamRange_budget _ total membersResp.Members _ (h.logCall _) hpos).1

theorem listAllTokensLoop_budget (svc : Service) (total : Int) (users : List User)
    (s : World) (h : WithinBudget total s) :
    WithinBudget total (listAllTokensLoop svc users s) := by
  induction users generalizing s with
  | nil => exact h
  | cons user rest ih =>
    simp only [listAllTokensLoop]
    split
    · exact h
    · next hpos =>
      split
      · exact ih _ (h.logCall _)
      · next tokensResp _ =>
        exact ih _ (streamRange_budget _ total tokensResp.Items _ (h.logCall _) hpos).1

theorem AdminService_fst (svc : Service) (s : World) :
    (AdminService svc s).1 = { s with credentialCalls := s.credentialCalls + 1 } := rfl

theorem AdminService_snd (svc : Service) (s : World) :
    (AdminService svc s).2 = svc.adminService := rfl

theorem WithinBudget.credential {total : Int} {s : World} (h : WithinBudget total s) :
    WithinBudget total { s with credentialCalls := s.credentialCalls + 1 } := h

theorem listGroups_budget (svc : Service) (d : QueryData) (total : Int) (fuel : Nat) (s : World)
    (h : WithinBudget total s) (hpos : RowsRemaining s ≠ 0) :
    WithinBudget total (listGroups fuel svc d s).1 := by
  unfold listGroups AdminService
  cases svc.adminService with
  | some err => exact h
  | none => exact listGroupsLoop_budget svc total fuel _ _ h.credential hpos

theorem listGroupMembers_budget (svc : Service) (d : QueryData) (total : Int) (fuel : Nat)
    (s : World) (h : WithinBudget total s) (hpos : RowsRemaining s ≠ 0) :
    WithinBudget total (listGroupMembers fuel svc d s).1 := by
  unfold listGroupMembers AdminService
  simp only
  split
  · exact h
  · cases svc.adminService with
    | some err => exact h
    | none => exact listGroupMembersLoop_budget svc _ total fuel _ _ h.credential hpos

theorem listOrgUnits_budget (svc : Service) (d : QueryData) (total : Int) (s : World)
    (h : WithinBudget total s) (hpos : RowsRemaining s ≠ 0) :
    WithinBudget total (listOrgUnits svc d s).1 := by
  unfold listOrgUnits AdminService
  cases svc.adminService with
  | some err => exact h
  | none =>
    simp only
    split
    · exact h
    · next resp _ =>
      exact (streamRange_budget Row.orgUnit total resp.OrganizationUnits _
        (h.credential.logCall _) hpos).1

theorem listAllGroupMembers_budget (svc : Service) (d : QueryData) (total : Int) (fuel : Nat)
    (s : World) (h : WithinBudget total s) (hpos : RowsRemaining s ≠ 0) :
    WithinBudget total (listAllGroupMembers fuel svc d s).1 := by
  unfold listAllGroupMembers
  simp only
  split
  · exact listGroupMembers_budget svc d total fuel s h hpos
  · unfold AdminService
    cases svc.adminService with
    | some err => exact h
    | none =>
      simp only
      split
      · exact h
      · exact listAllGroupMembersLoop_budget svc total _ _ (h.credential.logCall _)

theorem listAllTokens_budget (svc : Service) (d : QueryData) (total : Int) (s : World)
    (h : WithinBudget total s) :
    WithinBudget total (listAllTokens svc d s).1 := by
  unfold listAllTokens AdminService
  cases svc.adminService with
  | some err => exact h
  | none =>
    simp only
    split
    · exact h
    · exact listAllTokensLoop_budget svc total _ _ (h.credential.logCall _)

/-- Every lister other than `listDirectoryUsers` pushes at most `n` rows when
it starts with a row budget `n ≥ 1`, whatever the remote service answers and
however long the run is observed. -/
theorem rows_le_budget_of_ne_listDirectoryUsers (l : Lister) (hl : l ≠ .listDirectoryUsers)
    (fuel : Nat) (svc : Service) (d : QueryData) (s : World) (n : Int) (hn : 1 ≤ n)
    (hs : s.rowsRemaining = some n) :
    ((l.run fuel svc d s).1.rows.length : Int) ≤ s.rows.length + n := by
  have h : WithinBudget (s.rows.length + n) s := ⟨n, hs, by omega, rfl⟩
  have hpos : RowsRemaining s ≠ 0 := by rw [RowsRemaining_of_some hs]; omega
  cases l with
  | listDirectoryUsers => exact absurd rfl hl
  | listGroups => exact (listGroups_budget svc d _ fuel s h hpos).rows_le
  | listGroupMembers => exact (listGroupMembers_budget svc d _ fuel s h hpos).rows_le
  | listOrgUnits => exact (listOrgUnits_budget svc d _ s h hpos).rows_le
  | listAllGroupMembers => exact (listAllGroupMembers_budget svc d _ fuel s h hpos).rows_le
  | listAllTokens => exact (listAllTokens_budget svc d _ s h).rows_le

/-- The callback of `listDirectoryUsers` never returns an error; its world is
that of the emission loop. -/
theorem listDirectoryUsersPage_eq (page : Users) (s : World) :
    listDirectoryUsersPage page s = ((streamRange Row.user page.Users s).1, none) := by
  unfold listDirectoryUsersPage
  split <;> next h => simp [h]

/-- The pagination of `listDirectoryUsers` keeps the rows within the budget:
pages fetched after the budget is used up add no row. -/
theorem Pages_listDirectoryUsersPage_budget (svc : Service) (total : Int) (fuel : Nat)
    (c : UsersListCall) (s : World) (h : WithinBudget total s) :
    WithinBudget total (UsersListCall.Pages svc listDirectoryUsersPage fuel c s).1 := by
  induction fuel generalizing c s with
  | zero => exact h
  | succ fuel ih =>
    simp only [UsersListCall.Pages]
    split
    · exact h
    · next x _ =>
      have h2 : WithinBudget total (streamRange Row.user x.Users (logCall s (.usersList c))).1 :=
        streamRange_within Row.user total x.Users _ (h.logCall _)
      simp only [listDirectoryUsersPage_eq]
      split
      · exact h2
      · exact ih _ _ h2

theorem listDirectoryUsers_budget (svc : Service) (d : QueryData) (total : Int) (fuel : Nat)
    (s : World) (h : WithinBudget total s) :
    WithinBudget total (listDirectoryUsers fuel svc d s).1 := by
  unfold listDirectoryUsers AdminService
  cases svc.adminService with
  | some err => exact h
  | none =>
    have hp := Pages_listDirectoryUsersPage_budget svc total fuel (listDirectoryUsersReq d) _
      h.credential
    simp only
    split <;> next hq => rw [hq] at hp; exact hp

/-! ## The remote calls of the fan-out loops -/

/-- The loop over groups only appends to the trace of remote calls. -/
theorem listAllGroupMembersLoop_calls_prefix (svc : Service) (groups : List Group) (s : World) :
    ∃ new, (listAllGroupMembersLoop svc groups s).calls = s.calls ++ new := by
  induction groups generalizing s with
  | nil => exact ⟨[], by simp [listAllGroupMembersLoop]⟩
  | cons group rest ih =>
    simp only [listAllGroupMembersLoop]
    split
    · exact ⟨[], by simp⟩
    · split
      · obtain ⟨new, hnew⟩ := ih (logCall s (.membersList (membersListReq group.Email)))
        exact ⟨Call.membersList (membersListReq group.Email) :: new, by rw [hnew]; simp⟩
      · next membersResp _ =>
        obtain ⟨new, hnew⟩ := ih (streamRange
          (fun member => Row.member (memberWithGroup group.Email member)) membersResp.Members
          (logCall s (.membersList (membersListReq group.Email)))).1
        exact ⟨Call.membersList (membersListReq group.Email) :: new,
          by rw [hnew, streamRange_calls]; simp⟩

theorem listAllTokensLoop_calls_prefix (svc : Service) (users : List User) (s : World) :
    ∃ new, (listAllTokensLoop svc users s).calls = s.calls ++ new := by
  induction users generalizing s with
  | nil => exact ⟨[], by simp [listAllTokensLoop]⟩
  | cons user rest ih =>
    simp only [listAllTokensLoop]
    split
    · exact ⟨[], by simp⟩
    · split
      · obtain ⟨new, hnew⟩ := ih (logCall s (.tokensList (tokensListReq user.PrimaryEmail)))
        exact ⟨Call.tokensList (tokensListReq user.PrimaryEmail) :: new, by rw [hnew]; simp⟩
      · next tokensResp _ =>
        obtain ⟨new, hnew⟩ := ih (streamRange
          (fun token => Row.token (tokenWithUser user.PrimaryEmail user.PrimaryEmail token))
          tokensResp.Items (logCall s (.tokensList (tokensListReq user.PrimaryEmail)))).1
        exact ⟨Call.tokensList (tokensListReq user.PrimaryEmail) :: new,
          by rw [hnew, streamRange_calls]; simp⟩

/-! ## The emission loop under a finite budget -/

/-- Entered with a budget of `k + 1` rows, the emission loop pushes the first
`k + 1` items and is left early when there are that many; otherwise it pushes
all items and the budget that is left is positive. -/
theorem streamRange_bounded {α : Type} (mk : α → Row) (xs : List α) (s : World) (k : Nat)
    (hs : s.rowsRemaining = some ((k : Int) + 1)) :
    streamRange mk xs s =
      if k < xs.length then
        ({ s with rows := s.rows ++ (xs.take (k + 1)).map mk, rowsRemaining := some 0 }, true)
      else
        ({ s with rows := s.rows ++ xs.map mk
                  rowsRemaining := some (((k - xs.length : Nat) : Int) + 1) }, false) := by
  induction xs generalizing s k with
  | nil =>
    cases s
    simp only [streamRange, List.length_nil, Nat.not_lt_zero, if_false, List.map_nil,
      List.append_nil, Nat.sub_zero]
    simp only at hs
    rw [hs]
  | cons x xs ih =>
    have hne : RowsRemaining s ≠ 0 := by rw [RowsRemaining_of_some hs]; omega
    have h1 : (StreamListItem s (mk x)).rowsRemaining = some (k : Int) := by
      simp [StreamListItem_rowsRemaining hne, hs]
    simp only [streamRange, RowsRemaining_of_some h1]
    cases k with
    | zero =>
      simp only [Nat.cast_zero, if_true, List.length_cons, Nat.zero_lt_succ, zero_add,
        List.take_succ_cons, List.take_zero, List.map_cons, List.map_nil]
      simp [StreamListItem_of_ne hne, hs]
    | succ k =>
      have hk : ((k + 1 : Nat) : Int) ≠ 0 := by omega
      rw [if_neg hk, ih _ k (by rw [h1]; push_cast; rfl)]
      simp only [List.length_cons, Nat.add_lt_add_iff_right, StreamListItem_rows hne,
        List.append_assoc, List.singleton_append, List.take_succ_cons, List.map_cons,
        Nat.add_sub_add_right]
      split <;> simp [StreamListItem_of_ne hne]

/-! ## The pagination loop of `listGroups` on a complete page chain -/

theorem listGroupsLoop_complete_unbounded (svc : Service) (pages : List Groups) (fuel : Nat)
    (req : GroupsListCall) (s : World) (hunb : s.rowsRemaining = none)
    (hchain : GroupPagesComplete svc s.calls.length req pages) (hne : pages ≠ [])
    (hfuel : pages.length ≤ fuel) :
    listGroupsLoop svc fuel req s =
      ({ s with
         calls := s.calls ++ (groupPageRequests req pages).map Call.groupsList
         rows := s.rows ++ pages.flatMap (fun page => page.Groups.map Row.group) },
       some (none, none)) := by
  induction pages generalizing fuel req s with
  | nil => exact absurd rfl hne
  | cons page rest ih =>
    obtain ⟨fuel, rfl⟩ : ∃ k, fuel = k + 1 := ⟨fuel - 1, by simp at hfuel; omega⟩
    obtain ⟨hpage, htoken, hrest⟩ := hchain
    simp only [listGroupsLoop, hpage]
    rw [streamRange_unbounded _ _ _ (by simpa using hunb)]
    by_cases hlast : rest = []
    · subst hlast
      simp [htoken.mpr rfl, groupPageRequests]
    · have hnot : ¬ page.NextPageToken = "" := fun h => hlast (htoken.mp h)
      simp only [if_neg hnot]
      rw [ih fuel { req with pageToken := page.NextPageToken } _ (by simpa using hunb)
        (by simpa using hrest) hlast (by simpa using hfuel)]
      simp [groupPageRequests]

theorem listGroupsLoop_running (svc : Service) (pages : List Groups) (fuel : Nat)
    (req : GroupsListCall) (s : World) (hunb : s.rowsRemaining = none)
    (hchain : GroupPagesComplete svc s.calls.length req pages) (hfuel : fuel < pages.length) :
    (listGroupsLoop svc fuel req s).2 = none := by
  induction pages generalizing fuel req s with
  | nil => simp at hfuel
  | cons page rest ih =>
    cases fuel with
    | zero => rfl
    | succ fuel =>
      obtain ⟨hpage, htoken, hrest⟩ := hchain
      have hlast : rest ≠ [] := by
        intro h
        subst h
        simp at hfuel
      have hnot : ¬ page.NextPageToken = "" := fun h => hlast (htoken.mp h)
      simp only [listGroupsLoop, hpage]
      rw [streamRange_unbounded _ _ _ (by simpa using hunb)]
      simp only [if_neg hnot]
      exact ih fuel { req with pageToken := page.NextPageToken } _ (by simpa using hunb)
        (by simpa using hrest) (by simpa using hfuel)

theorem listGroupsLoop_complete_bounded (svc : Service) (pages : List Groups) (fuel : Nat)
    (req : GroupsListCall) (s : World) (k : Nat) (hs : s.rowsRemaining = some ((k : Int) + 1))
    (hchain : GroupPagesComplete svc s.calls.length req pages) (hne : pages ≠ [])
    (hfuel : pages.length ≤ fuel) :
    (listGroupsLoop svc fuel req s).2 = some (none, none) ∧
    (listGroupsLoop svc fuel req s).1.rows =
      s.rows ++ (pages.flatMap (fun page => page.Groups.map Row.group)).take (k + 1) ∧
    (listGroupsLoop svc fuel req s).1.calls =
      s.calls ++ ((groupPageRequests req pages).take
        (pagesNeeded k (pages.map (fun page => page.Groups.length)))).map Call.groupsList := by
  induction pages generalizing fuel req s k with
  | nil => exact absurd rfl hne
  | cons page rest ih =>
    obtain ⟨fuel, rfl⟩ : ∃ n, fuel = n + 1 := ⟨fuel - 1, by simp at hfuel; omega⟩
    obtain ⟨hpage, htoken, hrest⟩ := hchain
    simp only [listGroupsLoop, hpage]
    rw [streamRange_bounded Row.group page.Groups (logCall s (.groupsList req)) k
      (by simpa using hs)]
    by_cases hk : k < page.Groups.length
    · simp only [if_pos hk, List.flatMap_cons, List.map_cons, pagesNeeded, groupPageRequests,
        List.take_succ_cons, List.take_zero, List.map_nil, logCall_rows, logCall_calls]
      refine ⟨trivial, ?_, trivial⟩
      rw [List.take_append_of_le_length (by simpa using hk), List.map_take]
    · simp only [if_neg hk, List.flatMap_cons, List.map_cons, pagesNeeded, groupPageRequests,
        logCall_rows]
      have hle : page.Groups.length ≤ k := Nat.le_of_not_lt hk
      have htake : (List.map Row.group page.Groups ++
            rest.flatMap (fun page => page.Groups.map Row.group)).take (k + 1) =
          List.map Row.group page.Groups ++
            (rest.flatMap (fun page => page.Groups.map Row.group)).take
              (k - page.Groups.length + 1) := by
        rw [List.take_append_eq_append_take, List.take_of_length_le (by simp; omega)]
        congr 2
        simp
        omega
      by_cases hlast : rest = []
      · subst hlast
        simp only [if_pos (htoken.mpr rfl), List.flatMap_nil, List.append_nil, List.map_nil,
          pagesNeeded, Nat.add_zero, List.take_succ_cons, List.take_zero, logCall_calls]
        refine ⟨trivial, ?_, rfl⟩
        rw [List.take_of_length_le (by simp; omega)]
      · have hnot : ¬ page.NextPageToken = "" := fun h => hlast (htoken.mp h)
        simp only [if_neg hnot]
        obtain ⟨h1, h2, h3⟩ := ih fuel { req with pageToken := page.NextPageToken }
          { logCall s (.groupsList req) with
            rows := s.rows ++ page.Groups.map Row.group
            rowsRemaining := some (((k - page.Groups.length : Nat) : Int) + 1) }
          (k - page.Groups.length) rfl (by simpa using hrest) hlast (by simpa using hfuel)
        refine ⟨h1, ?_, ?_⟩
        · rw [h2, htake]; simp
        · rw [h3, Nat.add_comm 1, List.take_succ_cons]; simp

/-! ## The pagination loop of `listGroupMembers` on a complete page chain -/

theorem listGroupMembersLoop_complete_unbounded (svc : Service) (groupKey : String) (pages : List Members) (fuel : Nat)
    (req : MembersListCall) (s : World) (hunb : s.rowsRemaining = none)
    (hchain : MemberPagesComplete svc s.calls.length req pages) (hne : pages ≠ [])
    (hfuel : pages.length ≤ fuel) :
    listGroupMembersLoop svc groupKey fuel req s =
      ({ s with
         calls := s.calls ++ (memberPageRequests req pages).map Call.membersList
         rows := s.rows ++ pages.flatMap (fun page => page.Members.map (fun member => Row.member (memberWithGroup groupKey member))) },
       some (none, none)) := by
  induction pages generalizing fuel req s with
  | nil => exact absurd rfl hne
  | cons page rest ih =>
    obtain ⟨fuel, rfl⟩ : ∃ k, fuel = k + 1 := ⟨fuel - 1, by simp at hfuel; omega⟩
    obtain ⟨hpage, htoken, hrest⟩ := hchain
    simp only [listGroupMembersLoop, hpage]
    rw [streamRange_unbounded _ _ _ (by simpa using hunb)]
    by_cases hlast : rest = []
    · subst hlast
      simp [htoken.mpr rfl, memberPageRequests]
    · have hnot : ¬ page.NextPageToken = "" := fun h => hlast (htoken.mp h)
      simp only [if_neg hnot]
      rw [ih fuel { req with pageToken := page.NextPageToken } _ (by simpa using hunb)
        (by simpa using hrest) hlast (by simpa using hfuel)]
      simp [memberPageRequests]

theorem listGroupMembersLoop_running (svc : Service) (groupKey : String) (pages : List Members) (fuel : Nat)
    (req : MembersListCall) (s : World) (hunb : s.rowsRemaining = none)
    (hchain : MemberPagesComplete svc s.calls.length req pages) (hfuel : fuel < pages.length) :
    (listGroupMembersLoop svc groupKey fuel req s).2 = none := by
  induction pages generalizing fuel req s with
  | nil => simp at hfuel
  | cons page rest ih =>
    cases fuel with
    | zero => rfl
    | succ fuel =>
      obtain ⟨hpage, htoken, hrest⟩ := hchain
      have hlast : rest ≠ [] := by
        intro h
        subst h
        simp at hfuel
      have hnot : ¬ page.NextPageToken = "" := fun h => hlast (htoken.mp h)
      simp only [listGroupMembersLoop, hpage]
      rw [streamRange_unbounded _ _ _ (by simpa using hunb)]
      simp only [if_neg hnot]
      exact ih fuel { req with pageToken := page.NextPageToken } _ (by simpa using hunb)
        (by simpa using hrest) (by simpa using hfuel)

theorem listGroupMembersLoop_complete_bounded (svc : Service) (groupKey : String) (pages : List Members) (fuel : Nat)
    (req : MembersListCall) (s : World) (k : Nat) (hs : s.rowsRemaining = some ((k : Int) + 1))
    (hchain : MemberPagesComplete svc s.calls.length req pages) (hne : pages ≠ [])
    (hfuel : pages.length ≤ fuel) :
    (listGroupMembersLoop svc groupKey fuel req s).2 = some (none, none) ∧
    (listGroupMembersLoop svc groupKey fuel req s).1.rows =
      s.rows ++ (pages.flatMap (fun page => page.Members.map (fun member => Row.member (memberWithGroup groupKey member)))).take (k + 1) ∧
    (listGroupMembersLoop svc groupKey fuel req s).1.calls =
      s.calls ++ ((memberPageRequests req pages).take
        (pagesNeeded k (pages.map (fun page => page.Members.length)))).map Call.membersList := by
  induction pages generalizing fuel req s k with
  | nil => exact absurd rfl hne
  | cons page rest ih =>
    obtain ⟨fuel, rfl⟩ : ∃ n, fuel = n + 1 := ⟨fuel - 1, by simp at hfuel; omega⟩
    obtain ⟨hpage, htoken, hrest⟩ := hchain
    simp only [listGroupMembersLoop, hpage]
    rw [streamRange_bounded (fun member => Row.member (memberWithGroup groupKey member)) page.Members (logCall s (.membersList req)) k
      (by simpa using hs)]
    by_cases hk : k < page.Members.length
    · simp only [if_pos hk, List.flatMap_cons, List.map_cons, pagesNeeded, memberPageRequests,
        List.take_succ_cons, List.take_zero, List.map_nil, logCall_rows, logCall_calls]
      refine ⟨trivial, ?_, trivial⟩
      rw [List.take_append_of_le_length (by simpa using hk), List.map_take]
    · simp only [if_neg hk, List.flatMap_cons, List.map_cons, pagesNeeded, memberPageRequests,
        logCall_rows]
      have hle : page.Members.length ≤ k := Nat.le_of_not_lt hk
      have htake : (List.map (fun member => Row.member (memberWithGroup groupKey member)) page.Members ++
            rest.flatMap (fun page => page.Members.map (fun member => Row.member (memberWithGroup groupKey member)))).take (k + 1) =
          List.map (fun member => Row.member (memberWithGroup groupKey member)) page.Members ++
            (rest.flatMap (fun page => page.Members.map (fun member => Row.member (memberWithGroup groupKey member)))).take
              (k - page.Members.length + 1) := by
        rw [List.take_append_eq_append_take, List.take_of_length_le (by simp; omega)]
        congr 2
        simp
        omega
      by_cases hlast : rest = []
      · subst hlast
        simp only [if_pos (htoken.mpr rfl), List.flatMap_nil, List.append_nil, List.map_nil,
          pagesNeeded, Nat.add_zero, List.take_succ_cons, List.take_zero, logCall_calls]
        refine ⟨trivial, ?_, rfl⟩
        rw [List.take_of_length_le (by simp; omega)]
      · have hnot : ¬ page.NextPageToken = "" := fun h => hlast (htoken.mp h)
        simp only [if_neg hnot]
        obtain ⟨h1, h2, h3⟩ := ih fuel { req with pageToken := page.NextPageToken }
          { logCall s (.membersList req) with
            rows := s.rows ++ page.Members.map (fun member => Row.member (memberWithGroup groupKey member))
            rowsRemaining := some (((k - page.Members.length : Nat) : Int) + 1) }
          (k - page.Members.length) rfl (by simpa using hrest) hlast (by simpa using hfuel)
        refine ⟨h1, ?_, ?_⟩
        · rw [h2, htake]; simp
        · rw [h3, Nat.add_comm 1, List.take_succ_cons]; simp

/-! ## The row budget -/

/-- C1: every listing entry point (`listDirectoryUsers`, `listGroups`,
`listGroupMembers`, `listOrgUnits`, `listAllGroupMembers`, `listAllTokens`),
started with a finite row budget `n ≥ 1`, passes at most `n` rows to the sink,
whatever the remote service answers and however long the run is observed. -/
theorem C1_rows_within_budget (l : Lister) (fuel : Nat) (svc : Service) (d : QueryData)
    (s : World) (n : Int) (hn : 1 ≤ n) (hs : s.rowsRemaining = some n) :
    ((l.run fuel svc d s).1.rows.length : Int) ≤ s.rows.length + n := by
  by_cases hl : l = .listDirectoryUsers
  · subst hl
    exact (listDirectoryUsers_budget svc d _ fuel s ⟨n, hs, by omega, rfl⟩).rows_le
  · exact rows_le_budget_of_ne_listDirectoryUsers l hl fuel svc d s n hn hs

theorem C1_rows_within_budget_witness :
    (1 : Int) ≤ 1 ∧ (World.init (limitQuery 1)).rowsRemaining = some 1 ∧
    (((Lister.run .listDirectoryUsers 2 twoPageUsers (limitQuery 1)
      (World.init (limitQuery 1))).1.rows.length : Nat) : Int)
      ≤ ((World.init (limitQuery 1)).rows.length : Int) + 1 :=
  ⟨by decide, rfl,
   C1_rows_within_budget .listDirectoryUsers 2 twoPageUsers (limitQuery 1)
     (World.init (limitQuery 1)) 1 (by decide) rfl⟩

/-- With a row budget of 1 and a directory served as two pages of one user
each, `listDirectoryUsers` passes one row to the sink and still fetches the
second page: the callback handed to `Pages` returns `nil` when the budget
reaches zero, which does not stop the pagination; the user of the second page
is dropped by the sink. -/
theorem listDirectoryUsers_fetches_past_budget :
    Lister.run .listDirectoryUsers 2 twoPageUsers (limitQuery 1) (World.init (limitQuery 1))
      = ({ credentialCalls := 1
           calls := [.usersList { (listDirectoryUsersReq (limitQuery 1)) with pageToken := "" },
                     .usersList { (listDirectoryUsersReq (limitQuery 1)) with pageToken := "p2" }]
           rowsRemaining := some 0
           rows := [.user { Id := "1", PrimaryEmail := "a@x.com" }] },
         some (none, none)) := by
  rfl

/-! ## Get operations -/

/-- C2: a get operation called with an empty required key returns no record
and no error, and leaves the world untouched: the credential provider is not
asked and no remote call is issued. -/
theorem C2_get_empty_key_no_result (g : Getter) (svc : Service) (d : QueryData) (s : World)
    (h : ∃ k ∈ g.KeyColumns, d.EqualsQualString k = "") :
    g.run svc d s = (s, (none, none)) := by
  obtain ⟨k, hk, hempty⟩ := h
  cases g <;>
    simp only [Getter.KeyColumns, List.mem_cons, List.mem_singleton, List.not_mem_nil,
      or_false] at hk
  · subst hk
    simp [Getter.run, getGroup, hempty]
  · rcases hk with rfl | rfl <;> simp [Getter.run, getGroupMember, hempty]
  · subst hk
    simp [Getter.run, getOrgUnit, hempty]
  · rcases hk with rfl | rfl <;> simp [Getter.run, getToken, hempty]

theorem C2_get_empty_key_no_result_witness :
    (∃ k ∈ Getter.KeyColumns .getOrgUnit, plainQuery.EqualsQualString k = "") ∧
    Getter.run .getOrgUnit tokenService plainQuery (World.init plainQuery)
      = ({ credentialCalls := 0, calls := [], rowsRemaining := none, rows := [] },
         (none, none)) :=
  ⟨⟨"org_unit_path", by decide, rfl⟩,
   C2_get_empty_key_no_result .getOrgUnit tokenService plainQuery (World.init plainQuery)
     ⟨"org_unit_path", by decide, rfl⟩⟩

/-- C3 (as amended): with bound keys and a credential provider that succeeds,
`getGroup`, `getGroupMember` and `getOrgUnit` issue exactly one remote fetch,
whether it succeeds or fails; `getToken` issues one fetch when the token fetch
fails and two (the token fetch, then a user fetch) when it succeeds. The
credential provider is asked once. -/
theorem C3_get_fetch_count (g : Getter) (svc : Service) (d : QueryData) (s : World)
    (hcred : svc.adminService = none)
    (hkeys : ∀ k ∈ g.KeyColumns, d.EqualsQualString k ≠ "") :
    (g.run svc d s).1.credentialCalls = s.credentialCalls + 1 ∧
    (g ≠ .getToken → (g.run svc d s).1.calls.length = s.calls.length + 1) ∧
    (g = .getToken →
      (∀ err, svc.tokensGet s.calls.length
          { userKey := d.EqualsQualString "user_key", clientId := d.EqualsQualString "client_id",
            fields := tokenGetFields } = .error err →
        (g.run svc d s).1.calls.length = s.calls.length + 1) ∧
      (∀ token, svc.tokensGet s.calls.length
          { userKey := d.EqualsQualString "user_key", clientId := d.EqualsQualString "client_id",
            fields := tokenGetFields } = .ok token →
        (g.run svc d s).1.calls.length = s.calls.length + 2)) := by
  cases g <;>
    simp only [Getter.KeyColumns, List.mem_cons, List.mem_singleton, List.not_mem_nil,
      or_false, forall_eq_or_imp, forall_eq] at hkeys
  · simp only [Getter.run, getGroup, AdminService, hcred, if_neg hkeys]
    refine ⟨?_, fun _ => ?_, fun h => by cases h⟩ <;> split <;> simp
  · simp only [Getter.run, getGroupMember, AdminService, hcred,
      if_neg (not_or.mpr ⟨hkeys.1, hkeys.2⟩)]
    refine ⟨?_, fun _ => ?_, fun h => by cases h⟩ <;> split <;> simp
  · simp only [Getter.run, getOrgUnit, AdminService, hcred, if_neg hkeys]
    refine ⟨?_, fun _ => ?_, fun h => by cases h⟩ <;> split <;> simp
  · simp only [Getter.run, getToken, AdminService, hcred,
      if_neg (not_or.mpr ⟨hkeys.1, hkeys.2⟩)]
    refine ⟨?_, fun h => absurd rfl h, fun _ => ⟨fun err he => ?_, fun token ht => ?_⟩⟩
    · split
      · simp
      · split <;> simp
    · simp [he]
    · simp only [ht]
      split <;> simp

theorem C3_get_fetch_count_witness :
    unavailable.adminService = none ∧
    (∀ k ∈ Getter.KeyColumns .getGroup, groupQuery.EqualsQualString k ≠ "") ∧
    (Getter.run .getGroup unavailable groupQuery (World.init groupQuery)).1.calls.length
      = (World.init groupQuery).calls.length + 1 :=
  ⟨rfl, by decide,
   (C3_get_fetch_count .getGroup unavailable groupQuery (World.init groupQuery) rfl
     (by decide)).2.1 (by decide)⟩

/-- C3 (counterexample): `getToken`, called with both keys bound, working
credentials and a token fetch that succeeds, performs two remote fetches
before it returns, not one. -/
theorem C3_getToken_two_fetches :
    tokenService.adminService = none ∧
    (∀ k ∈ Getter.KeyColumns .getToken, tokenQuery.EqualsQualString k ≠ "") ∧
    (Getter.run .getToken tokenService tokenQuery (World.init tokenQuery)).1.calls
      = [.tokensGet { userKey := "a@x.com", clientId := "c1", fields := tokenGetFields },
         .usersGet { userKey := "a@x.com", fields := "primaryEmail" }] ∧
    (Getter.run .getToken tokenService tokenQuery (World.init tokenQuery)).1.calls.length ≠ 1 := by
  refine ⟨rfl, by decide, rfl, by decide⟩

/-! ## Fan-out listings without a limit -/

theorem listAllGroupMembersLoop_unbounded (svc : Service) (groups : List Group) (s : World)
    (h : s.rowsRemaining = none) :
    listAllGroupMembersLoop svc groups s =
      { s with
        calls := s.calls ++ groups.map (fun group => Call.membersList (membersListReq group.Email))
        rows := s.rows ++ specGroupFanOut svc s.calls.length groups } := by
  induction groups generalizing s with
  | nil => simp [listAllGroupMembersLoop, specGroupFanOut]
  | cons group rest ih =>
    simp only [listAllGroupMembersLoop, specGroupFanOut]
    rw [if_neg (by rw [RowsRemaining_of_none h]; decide)]
    cases hfetch : svc.membersList s.calls.length (membersListReq group.Email) with
    | error err =>
      simp only
      rw [ih _ (by simpa using h)]
      simp
    | ok resp =>
      simp only
      rw [streamRange_unbounded _ _ _ (by simpa using h), ih _ (by simpa using h)]
      simp

theorem listAllTokensLoop_unbounded (svc : Service) (users : List User) (s : World)
    (h : s.rowsRemaining = none) :
    listAllTokensLoop svc users s =
      { s with
        calls := s.calls ++ users.map (fun user => Call.tokensList (tokensListReq user.PrimaryEmail))
        rows := s.rows ++ specUserFanOut svc s.calls.length users } := by
  induction users generalizing s with
  | nil => simp [listAllTokensLoop, specUserFanOut]
  | cons user rest ih =>
    simp only [listAllTokensLoop, specUserFanOut]
    rw [if_neg (by rw [RowsRemaining_of_none h]; decide)]
    cases hfetch : svc.tokensList s.calls.length (tokensListReq user.PrimaryEmail) with
    | error err =>
      simp only
      rw [ih _ (by simpa using h)]
      simp
    | ok resp =>
      simp only
      rw [streamRange_unbounded _ _ _ (by simpa using h), ih _ (by simpa using h)]
      simp

/-- C4: without a limit and with a parent listing that succeeds, the fan-out
listings `listAllGroupMembers` (no `group_key` filter) and `listAllTokens`
issue the child fetch of every parent in parent order, emit exactly the rows
of `specGroupFanOut` / `specUserFanOut` (the joins of each parent with the
children of its successful fetch, nothing for a parent whose fetch failed) and
return no error. -/
theorem C4_fan_out_unbounded (svc : Service) (d : QueryData) (s : World)
    (hunb : s.rowsRemaining = none) (hcred : svc.adminService = none) :
    (∀ (fuel : Nat) (groupsResp : Groups), d.EqualsQualString "group_key" = "" →
      svc.groupsList s.calls.length allGroupsReq = .ok groupsResp →
      listAllGroupMembers fuel svc d s =
        ({ credentialCalls := s.credentialCalls + 1
           calls := s.calls ++ Call.groupsList allGroupsReq ::
             groupsResp.Groups.map (fun group => Call.membersList (membersListReq group.Email))
           rowsRemaining := none
           rows := s.rows ++ specGroupFanOut svc (s.calls.length + 1) groupsResp.Groups },
         some (none, none))) ∧
    (∀ usersResp : Users, svc.usersList s.calls.length allUsersReq = .ok usersResp →
      listAllTokens svc d s =
        ({ credentialCalls := s.credentialCalls + 1
           calls := s.calls ++ Call.usersList allUsersReq ::
             usersResp.Users.map (fun user => Call.tokensList (tokensListReq user.PrimaryEmail))
           rowsRemaining := none
           rows := s.rows ++ specUserFanOut svc (s.calls.length + 1) usersResp.Users },
         some (none, none))) := by
  constructor
  · intro fuel groupsResp hkey hlist
    simp only [listAllGroupMembers, hkey, ne_eq, not_true_eq_false, if_false, AdminService, hcred,
      hlist]
    rw [listAllGroupMembersLoop_unbounded _ _ _ (by simpa using hunb)]
    simp [hunb]
  · intro usersResp hlist
    simp only [listAllTokens, AdminService, hcred, hlist]
    rw [listAllTokensLoop_unbounded _ _ _ (by simpa using hunb)]
    simp [hunb]

theorem C4_fan_out_unbounded_witness :
    (World.init plainQuery).rowsRemaining = none ∧ twoGroups.adminService = none ∧
    listAllGroupMembers 0 twoGroups plainQuery (World.init plainQuery) =
      ({ credentialCalls := 1
         calls := [.groupsList allGroupsReq, .membersList (membersListReq "g1@x.com"),
                   .membersList (membersListReq "g2@x.com")]
         rowsRemaining := none
         rows := [.member (memberWithGroup "g1@x.com" member1),
                  .member (memberWithGroup "g1@x.com" member2)] },
       some (none, none)) :=
  ⟨rfl, rfl,
   (C4_fan_out_unbounded twoGroups plainQuery (World.init plainQuery) rfl rfl).1 0
     { Groups := [{ Id := "g1", Email := "g1@x.com", Name := "G1" },
                  { Id := "g2", Email := "g2@x.com", Name := "G2" }],
       NextPageToken := "" } rfl rfl⟩

/-! ## Synthetic join rows -/

/-- C5: on a query without `group_key` filter, `listAllGroupMembers` emits the
members of group `g1@x.com` with `GroupKey = "g1@x.com"`, but the table's
`group_key` column, computed by `FromQual("group_key")`, shows the empty
qualifier value for each of these rows, not the group's email. -/
theorem C5_group_key_column_not_group_email :
    plainQuery.EqualsQualString "group_key" = "" ∧
    (listAllGroupMembers 0 twoGroups plainQuery (World.init plainQuery)).1.rows =
      [.member (memberWithGroup "g1@x.com" member1),
       .member (memberWithGroup "g1@x.com" member2)] ∧
    (memberWithGroup "g1@x.com" member1).GroupKey = "g1@x.com" ∧
    ((listAllGroupMembers 0 twoGroups plainQuery (World.init plainQuery)).1.rows.map
      (groupMembers_group_key plainQuery)) = ["", ""] ∧
    groupMembers_group_key plainQuery (.member (memberWithGroup "g1@x.com" member1))
      ≠ "g1@x.com" := by
  refine ⟨rfl, rfl, rfl, rfl, by decide⟩

theorem streamRange_mem {α : Type} (mk : α → Row) (xs : List α) (s : World) (row : Row)
    (h : row ∈ (streamRange mk xs s).1.rows) : row ∈ s.rows ∨ ∃ x ∈ xs, row = mk x := by
  obtain ⟨k, _, hrows⟩ := streamRange_rows_prefix mk xs s
  rw [hrows, List.mem_append, List.mem_map] at h
  rcases h with h | ⟨x, hx, rfl⟩
  · exact Or.inl h
  · exact Or.inr ⟨x, List.mem_of_mem_take hx, rfl⟩

theorem memberWithGroup_isJoin (groupKey : String) (member : Member) :
    IsMemberJoin groupKey member (memberWithGroup groupKey member) :=
  ⟨rfl, rfl, rfl, rfl, rfl, rfl, rfl, rfl, rfl⟩

theorem tokenWithUser_isJoin (userKey primaryEmail : String) (token : Token) :
    IsTokenJoin userKey token (tokenWithUser userKey primaryEmail token) :=
  ⟨rfl, rfl, rfl, rfl, rfl, rfl, rfl, rfl⟩

theorem listGroupMembersLoop_rows (svc : Service) (groupKey : String) (fuel : Nat)
    (req : MembersListCall) (s : World) (hreq : req.groupKey = groupKey) (row : Row)
    (h : row ∈ (listGroupMembersLoop svc groupKey fuel req s).1.rows) :
    row ∈ s.rows ∨ MemberRowUnder svc groupKey row := by
  induction fuel generalizing req s with
  | zero => exact Or.inl h
  | succ fuel ih =>
    simp only [listGroupMembersLoop] at h
    split at h
    · exact Or.inl h
    · next resp hresp =>
      have hnew : ∀ r ∈ (streamRange (fun member => Row.member (memberWithGroup groupKey member))
          resp.Members (logCall s (.membersList req))).1.rows,
          r ∈ s.rows ∨ MemberRowUnder svc groupKey r := by
        intro r hr
        rcases streamRange_mem _ _ _ _ hr with hr | ⟨member, hmem, rfl⟩
        · exact Or.inl hr
        · exact Or.inr ⟨_, req, resp, member, _, hreq, hresp, hmem, rfl,
            memberWithGroup_isJoin groupKey member⟩
      split at h
      · next s2 heq => rw [heq] at hnew; exact hnew row h
      · next s2 heq =>
        rw [heq] at hnew
        split at h
        · exact hnew row h
        · rcases ih { req with pageToken := resp.NextPageToken } s2 hreq h with h2 | h2
          · exact hnew row h2
          · exact Or.inr h2

theorem listGroupMembers_rows (svc : Service) (d : QueryData) (fuel : Nat) (s : World) (row : Row)
    (h : row ∈ (listGroupMembers fuel svc d s).1.rows) :
    row ∈ s.rows ∨ MemberRowUnder svc (d.EqualsQualString "group_key") row := by
  unfold listGroupMembers AdminService at h
  simp only at h
  split at h
  · exact Or.inl h
  · cases hcred : svc.adminService with
    | some err => simp only [hcred] at h; exact Or.inl h
    | none =>
      simp only [hcred] at h
      have hloop := listGroupMembersLoop_rows svc (d.EqualsQualString "group_key") fuel
        (membersListReq (d.EqualsQualString "group_key")) _ rfl row h
      exact hloop

theorem listAllGroupMembersLoop_rows (svc : Service) (groups : List Group) (s : World) (row : Row)
    (h : row ∈ (listAllGroupMembersLoop svc groups s).rows) :
    row ∈ s.rows ∨ ∃ group ∈ groups, MemberRowUnder svc group.Email row := by
  induction groups generalizing s with
  | nil => exact Or.inl h
  | cons group rest ih =>
    simp only [listAllGroupMembersLoop] at h
    split at h
    · exact Or.inl h
    · split at h
      · rcases ih _ h with h2 | ⟨g, hg, hrow⟩
        · exact Or.inl h2
        · exact Or.inr ⟨g, List.mem_cons_of_mem _ hg, hrow⟩
      · next membersResp hresp =>
        rcases ih _ h with h2 | ⟨g, hg, hrow⟩
        · rcases streamRange_mem _ _ _ _ h2 with h3 | ⟨member, hmem, rfl⟩
          · exact Or.inl h3
          · exact Or.inr ⟨group, List.mem_cons_self _ _, _, membersListReq group.Email,
              membersResp, member, _, rfl, hresp, hmem, rfl,
              memberWithGroup_isJoin group.Email member⟩
        · exact Or.inr ⟨g, List.mem_cons_of_mem _ hg, hrow⟩

theorem listAllTokensLoop_rows (svc : Service) (users : List User) (s : World) (row : Row)
    (h : row ∈ (listAllTokensLoop svc users s).rows) :
    row ∈ s.rows ∨ ∃ user ∈ users, TokenRowUnder svc user.PrimaryEmail row := by
  induction users generalizing s with
  | nil => exact Or.inl h
  | cons user rest ih =>
    simp only [listAllTokensLoop] at h
    split at h
    · exact Or.inl h
    · split at h
      · rcases ih _ h with h2 | ⟨u, hu, hrow⟩
        · exact Or.inl h2
        · exact Or.inr ⟨u, List.mem_cons_of_mem _ hu, hrow⟩
      · next tokensResp hresp =>
        rcases ih _ h with h2 | ⟨u, hu, hrow⟩
        · rcases streamRange_mem _ _ _ _ h2 with h3 | ⟨token, hmem, rfl⟩
          · exact Or.inl h3
          · exact Or.inr ⟨user, List.mem_cons_self _ _, _, tokensListReq user.PrimaryEmail,
              tokensResp, token, _, rfl, hresp, hmem, rfl,
              tokenWithUser_isJoin user.PrimaryEmail user.PrimaryEmail token, rfl⟩
        · exact Or.inr ⟨u, List.mem_cons_of_mem _ hu, hrow⟩

/-- C6: every synthetic join record built by the code carries the parent key
of its context and the fields of the child record it was built from.
A row pushed by `listGroupMembers` joins the `group_key` qualifier with a
member returned for that group; a row pushed by `listAllGroupMembers` without
filter joins the email of a listed group with a member returned for that
group; a row pushed by `listAllTokens` joins the primary email of a listed
user with a token returned for that user; the records returned by
`getGroupMember` and `getToken` join the `group_key` / `user_key` qualifier
with the fetched member / token. Nothing is assumed about the child record,
so its own id and email may be empty. -/
theorem C6_join_rows_carry_parent_key (fuel : Nat) (svc : Service) (d : QueryData) (s : World) :
    (∀ row ∈ (listGroupMembers fuel svc d s).1.rows,
      row ∈ s.rows ∨ MemberRowUnder svc (d.EqualsQualString "group_key") row) ∧
    (d.EqualsQualString "group_key" = "" →
      ∀ row ∈ (listAllGroupMembers fuel svc d s).1.rows,
        row ∈ s.rows ∨ ∃ groupsResp group,
          svc.groupsList s.calls.length allGroupsReq = .ok groupsResp ∧
          group ∈ groupsResp.Groups ∧ MemberRowUnder svc group.Email row) ∧
    (∀ row ∈ (listAllTokens svc d s).1.rows,
      row ∈ s.rows ∨ ∃ usersResp user,
        svc.usersList s.calls.length allUsersReq = .ok usersResp ∧
        user ∈ usersResp.Users ∧ TokenRowUnder svc user.PrimaryEmail row) ∧
    (∀ item, (getGroupMember svc d s).2.1 = some item →
      ∃ member mw,
        svc.membersGet s.calls.length
          { groupKey := d.EqualsQualString "group_key"
            memberKey := d.EqualsQualString "member_key", fields := memberGetFields }
          = .ok member ∧
        item = .member mw ∧ IsMemberJoin (d.EqualsQualString "group_key") member mw) ∧
    (∀ item, (getToken svc d s).2.1 = some item →
      ∃ token tw,
        svc.tokensGet s.calls.length
          { userKey := d.EqualsQualString "user_key"
            clientId := d.EqualsQualString "client_id", fields := tokenGetFields }
          = .ok token ∧
        item = .token tw ∧ IsTokenJoin (d.EqualsQualString "user_key") token tw) := by
  refine ⟨fun row h => listGroupMembers_rows svc d fuel s row h, ?_, ?_, ?_, ?_⟩
  · intro hkey row h
    simp only [listAllGroupMembers, hkey, ne_eq, not_true_eq_false, if_false, AdminService] at h
    cases hcred : svc.adminService with
    | some err => simp only [hcred] at h; exact Or.inl h
    | none =>
      simp only [hcred] at h
      split at h
      · exact Or.inl h
      · next groupsResp hresp =>
        rcases listAllGroupMembersLoop_rows svc _ _ row h with h2 | ⟨group, hg, hrow⟩
        · exact Or.inl h2
        · exact Or.inr ⟨groupsResp, group, hresp, hg, hrow⟩
  · intro row h
    simp only [listAllTokens, AdminService] at h
    cases hcred : svc.adminService with
    | some err => simp only [hcred] at h; exact Or.inl h
    | none =>
      simp only [hcred] at h
      split at h
      · exact Or.inl h
      · next usersResp hresp =>
        rcases listAllTokensLoop_rows svc _ _ row h with h2 | ⟨user, hu, hrow⟩
        · exact Or.inl h2
        · exact Or.inr ⟨usersResp, user, hresp, hu, hrow⟩
  · intro item h
    simp only [getGroupMember, AdminService] at h
    split at h
    · simp at h
    · cases hcred : svc.adminService with
      | some err => simp [hcred] at h
      | none =>
        simp only [hcred] at h
        split at h
        · simp at h
        · next member hresp =>
          simp only [Option.some.injEq] at h
          exact ⟨member, _, hresp, h.symm, memberWithGroup_isJoin _ member⟩
  · intro item h
    simp only [getToken, AdminService] at h
    split at h
    · simp at h
    · cases hcred : svc.adminService with
      | some err => simp [hcred] at h
      | none =>
        simp only [hcred] at h
        split at h
        · simp at h
        · next token hresp =>
          split at h
          · simp at h
          · simp only [Option.some.injEq] at h
            exact ⟨token, _, hresp, h.symm, tokenWithUser_isJoin _ _ token⟩

theorem C6_join_rows_carry_parent_key_witness :
    Row.member (memberWithGroup "g1@x.com" member2) ∈
      (listAllGroupMembers 0 twoGroups plainQuery (World.init plainQuery)).1.rows ∧
    member2.Id = "" ∧ member2.Email = "" ∧
    (Row.member (memberWithGroup "g1@x.com" member2) ∈ (World.init plainQuery).rows ∨
      ∃ groupsResp group,
        twoGroups.groupsList (World.init plainQuery).calls.length allGroupsReq = .ok groupsResp ∧
        group ∈ groupsResp.Groups ∧
        MemberRowUnder twoGroups group.Email (Row.member (memberWithGroup "g1@x.com" member2))) :=
  ⟨by decide, rfl, rfl,
   (C6_join_rows_carry_parent_key 0 twoGroups plainQuery (World.init plainQuery)).2.1 rfl _
     (by decide)⟩

/-! ## The query of the user listing -/

/-- The `query` parameter that `listDirectoryUsers` sends: the `orgUnitPath`
term when `org_unit_path` is supplied, else the `email` term when
`primary_email` is supplied, else none. -/
theorem listDirectoryUsersReq_query (d : QueryData) :
    (listDirectoryUsersReq d).query =
      if d.EqualsQualString "org_unit_path" ≠ "" then
        some ("orgUnitPath:" ++ d.EqualsQualString "org_unit_path")
      else if d.EqualsQualString "primary_email" ≠ "" then
        some ("email:" ++ d.EqualsQualString "primary_email")
      else none := by
  unfold listDirectoryUsersReq UsersListCall.Query
  by_cases ho : d.EqualsQualString "org_unit_path" = "" <;>
    by_cases he : d.EqualsQualString "primary_email" = "" <;> simp [ho, he]

/-- C7: with both `primary_email = "a@x.com"` and `org_unit_path = "/Sales"`
supplied, the user-list call that `listDirectoryUsers` issues carries the
query `orgUnitPath:/Sales`: the second `Query` call replaced the first, and
the term `email:a@x.com` is not in the query. With only `primary_email`
supplied the query is `email:a@x.com`, and with neither no query is set. -/
theorem C7_org_unit_query_replaces_email_query :
    bothFilters.EqualsQualString "primary_email" = "a@x.com" ∧
    bothFilters.EqualsQualString "org_unit_path" = "/Sales" ∧
    (listDirectoryUsers 1 unavailable bothFilters (World.init bothFilters)).1.calls =
      [.usersList { customer := "my_customer", fields := userListFields, maxResults := some 100,
                    query := some "orgUnitPath:/Sales", pageToken := "" }] ∧
    ¬ containsTerm "orgUnitPath:/Sales" ("email:" ++ "a@x.com") ∧
    (listDirectoryUsersReq emailFilter).query = some "email:a@x.com" ∧
    (listDirectoryUsersReq plainQuery).query = none := by
  refine ⟨rfl, rfl, rfl, by decide, rfl, rfl⟩

/-! ## The remote calls of the pagination loops -/

theorem listGroupsLoop_calls (svc : Service) (fuel : Nat) (req : GroupsListCall) (s : World) :
    ∃ new, (listGroupsLoop svc fuel req s).1.calls = s.calls ++ new ∧
      ∀ c ∈ new, ∃ token, c = .groupsList { req with pageToken := token } := by
  induction fuel generalizing req s with
  | zero => exact ⟨[], by simp [listGroupsLoop], by simp⟩
  | succ fuel ih =>
    have hone : ∀ c ∈ [Call.groupsList req],
        ∃ token, c = .groupsList { req with pageToken := token } := by
      intro c hc
      rw [List.mem_singleton] at hc
      exact ⟨req.pageToken, hc⟩
    simp only [listGroupsLoop]
    split
    · exact ⟨[.groupsList req], rfl, hone⟩
    · next resp _ =>
      have hcalls := streamRange_calls Row.group resp.Groups (logCall s (.groupsList req))
      split
      · next s2 heq => rw [heq] at hcalls; exact ⟨[.groupsList req], hcalls, hone⟩
      · next s2 heq =>
        rw [heq] at hcalls
        simp only at hcalls
        split
        · exact ⟨[.groupsList req], hcalls, hone⟩
        · obtain ⟨new, hnew, hall⟩ := ih { req with pageToken := resp.NextPageToken } s2
          refine ⟨.groupsList req :: new, by rw [hnew, hcalls]; simp, ?_⟩
          intro c hc
          rcases List.mem_cons.mp hc with rfl | hc
          · exact ⟨req.pageToken, rfl⟩
          · exact hall c hc

theorem listGroupMembersLoop_calls (svc : Service) (groupKey : String) (fuel : Nat)
    (req : MembersListCall) (s : World) :
    ∃ new, (listGroupMembersLoop svc groupKey fuel req s).1.calls = s.calls ++ new ∧
      ∀ c ∈ new, ∃ token, c = .membersList { req with pageToken := token } := by
  induction fuel generalizing req s with
  | zero => exact ⟨[], by simp [listGroupMembersLoop], by simp⟩
  | succ fuel ih =>
    have hone : ∀ c ∈ [Call.membersList req],
        ∃ token, c = .membersList { req with pageToken := token } := by
      intro c hc
      rw [List.mem_singleton] at hc
      exact ⟨req.pageToken, hc⟩
    simp only [listGroupMembersLoop]
    split
    · exact ⟨[.membersList req], rfl, hone⟩
    · next resp _ =>
      have hcalls := streamRange_calls (fun member => Row.member (memberWithGroup groupKey member))
        resp.Members (logCall s (.membersList req))
      split
      · next s2 heq => rw [heq] at hcalls; exact ⟨[.membersList req], hcalls, hone⟩
      · next s2 heq =>
        rw [heq] at hcalls
        simp only at hcalls
        split
        · exact ⟨[.membersList req], hcalls, hone⟩
        · obtain ⟨new, hnew, hall⟩ := ih { req with pageToken := resp.NextPageToken } s2
          refine ⟨.membersList req :: new, by rw [hnew, hcalls]; simp, ?_⟩
          intro c hc
          rcases List.mem_cons.mp hc with rfl | hc
          · exact ⟨req.pageToken, rfl⟩
          · exact hall c hc

theorem listDirectoryUsersPage_calls (page : Users) (s : World) :
    (listDirectoryUsersPage page s).1.calls = s.calls := by
  have h := streamRange_calls Row.user page.Users s
  unfold listDirectoryUsersPage
  split <;> next heq => rw [heq] at h; exact h

theorem listDirectoryUsersPage_snd (page : Users) (s : World) :
    (listDirectoryUsersPage page s).2 = none := by
  unfold listDirectoryUsersPage
  split <;> rfl

theorem Pages_calls (svc : Service) (fuel : Nat) (c : UsersListCall) (s : World) :
    ∃ new, (UsersListCall.Pages svc listDirectoryUsersPage fuel c s).1.calls = s.calls ++ new ∧
      ∀ call ∈ new, ∃ token, call = .usersList { c with pageToken := token } := by
  induction fuel generalizing c s with
  | zero => exact ⟨[], by simp [UsersListCall.Pages], by simp⟩
  | succ fuel ih =>
    have hone : ∀ call ∈ [Call.usersList c],
        ∃ token, call = .usersList { c with pageToken := token } := by
      intro call hc
      rw [List.mem_singleton] at hc
      exact ⟨c.pageToken, hc⟩
    simp only [UsersListCall.Pages]
    split
    · exact ⟨[.usersList c], rfl, hone⟩
    · next x _ =>
      have hcalls := listDirectoryUsersPage_calls x (logCall s (.usersList c))
      have hsnd := listDirectoryUsersPage_snd x (logCall s (.usersList c))
      split
      · next s2 err heq => rw [heq] at hsnd; simp at hsnd
      · next s2 heq =>
        rw [heq] at hcalls
        simp only at hcalls
        split
        · exact ⟨[.usersList c], hcalls, hone⟩
        · obtain ⟨new, hnew, hall⟩ := ih { c with pageToken := x.NextPageToken } s2
          refine ⟨.usersList c :: new, by rw [hnew, hcalls]; simp, ?_⟩
          intro call hc
          rcases List.mem_cons.mp hc with rfl | hc
          · exact ⟨c.pageToken, rfl⟩
          · exact hall call hc

/-! ## Parent-scoping filters -/

/-- C8 (counterexample): `listAllTokens`, called with the parent-scoping
filter `user_key = "a@x.com"`, still issues the parent listing `Users.List`
and fetches the tokens of every listed user, also of `b@x.com`. -/
theorem C8_listAllTokens_ignores_user_key :
    userKeyQuery.EqualsQualString "user_key" = "a@x.com" ∧
    (listAllTokens twoUsers userKeyQuery (World.init userKeyQuery)).1.calls =
      [.usersList allUsersReq, .tokensList (tokensListReq "a@x.com"),
       .tokensList (tokensListReq "b@x.com")] ∧
    Call.usersList allUsersReq ∈
      (listAllTokens twoUsers userKeyQuery (World.init userKeyQuery)).1.calls ∧
    (listAllTokens twoUsers userKeyQuery (World.init userKeyQuery)).1.rows =
      [.token (tokenWithUser "a@x.com" "a@x.com" token1),
       .token (tokenWithUser "b@x.com" "b@x.com" token1)] := by
  refine ⟨rfl, rfl, by decide, rfl⟩

/-- C8 (as amended): when `group_key` is non-empty, every remote call of
`listAllGroupMembers` is a `Members.List` for the group named by the filter
(no `Groups.List` is issued); when `group_key` is empty and the credentials
work, its first remote call is the parent listing `Groups.List`.
`listAllTokens` does not read the qualifiers: it behaves the same for every
query and, when the credentials work, always starts with the parent listing
`Users.List`. -/
theorem C8_parent_filter_scoping (fuel : Nat) (svc : Service) (d : QueryData) (s : World) :
    (d.EqualsQualString "group_key" ≠ "" →
      ∃ new, (listAllGroupMembers fuel svc d s).1.calls = s.calls ++ new ∧
        ∀ c ∈ new, ∃ req : MembersListCall,
          c = .membersList req ∧ req.groupKey = d.EqualsQualString "group_key") ∧
    (d.EqualsQualString "group_key" = "" → svc.adminService = none →
      ∃ rest, (listAllGroupMembers fuel svc d s).1.calls =
        s.calls ++ Call.groupsList allGroupsReq :: rest) ∧
    (∀ d2 : QueryData, listAllTokens svc d s = listAllTokens svc d2 s) ∧
    (svc.adminService = none →
      ∃ rest, (listAllTokens svc d s).1.calls = s.calls ++ Call.usersList allUsersReq :: rest) := by
  refine ⟨?_, ?_, fun _ => rfl, ?_⟩
  · intro hkey
    simp only [listAllGroupMembers, listGroupMembers, ne_eq, hkey, not_false_eq_true, if_true,
      if_false, AdminService]
    cases svc.adminService with
    | some err => exact ⟨[], by simp, by simp⟩
    | none =>
      obtain ⟨new, hnew, hall⟩ := listGroupMembersLoop_calls svc (d.EqualsQualString "group_key")
        fuel (membersListReq (d.EqualsQualString "group_key"))
        { s with credentialCalls := s.credentialCalls + 1 }
      refine ⟨new, hnew, fun c hc => ?_⟩
      obtain ⟨token, rfl⟩ := hall c hc
      exact ⟨_, rfl, rfl⟩
  · intro hkey hcred
    simp only [listAllGroupMembers, hkey, ne_eq, not_true_eq_false, if_false, AdminService, hcred]
    split
    · exact ⟨[], rfl⟩
    · next groupsResp _ =>
      obtain ⟨new, hnew⟩ := listAllGroupMembersLoop_calls_prefix svc groupsResp.Groups
        (logCall { s with credentialCalls := s.credentialCalls + 1 } (.groupsList allGroupsReq))
      exact ⟨new, by rw [hnew]; simp⟩
  · intro hcred
    simp only [listAllTokens, AdminService, hcred]
    split
    · exact ⟨[], rfl⟩
    · next usersResp _ =>
      obtain ⟨new, hnew⟩ := listAllTokensLoop_calls_prefix svc usersResp.Users
        (logCall { s with credentialCalls := s.credentialCalls + 1 } (.usersList allUsersReq))
      exact ⟨new, by rw [hnew]; simp⟩

theorem C8_parent_filter_scoping_witness :
    groupKeyQuery.EqualsQualString "group_key" ≠ "" ∧
    ∃ new, (listAllGroupMembers 1 twoGroups groupKeyQuery (World.init groupKeyQuery)).1.calls =
        (World.init groupKeyQuery).calls ++ new ∧
      ∀ c ∈ new, ∃ req : MembersListCall,
        c = .membersList req ∧ req.groupKey = groupKeyQuery.EqualsQualString "group_key" :=
  ⟨by decide,
   (C8_parent_filter_scoping 1 twoGroups groupKeyQuery (World.init groupKeyQuery)).1 (by decide)⟩

/-! ## Page sizes -/

/-- C9 (counterexample): with a row budget of 5, `listGroups` asks the remote
group listing for pages of 200, which is more than the remaining budget. -/
theorem C9_listGroups_page_size_exceeds_budget :
    RowsRemaining (World.init (limitQuery 5)) = 5 ∧
    (listGroups 1 twoGroups (limitQuery 5) (World.init (limitQuery 5))).1.calls =
      [.groupsList { customer := "my_customer", fields := groupListFields,
                     maxResults := some 200, pageToken := "" }] ∧
    ¬ ((200 : Int) ≤ RowsRemaining (World.init (limitQuery 5))) := by
  refine ⟨rfl, rfl, by decide⟩

theorem usersMaxResults_le (d : QueryData) : usersMaxResults d ≤ 100 := by
  unfold usersMaxResults
  split
  · decide
  · split
    · omega
    · decide

theorem usersMaxResults_of_limit_lt (d : QueryData) (limit : Int) (h : d.Limit = some limit)
    (hlt : limit < 100) : usersMaxResults d = limit := by
  simp [usersMaxResults, h, hlt]

theorem listDirectoryUsersReq_maxResults (d : QueryData) :
    (listDirectoryUsersReq d).maxResults = some (usersMaxResults d) := by
  unfold listDirectoryUsersReq UsersListCall.Query
  by_cases ho : d.EqualsQualString "org_unit_path" = "" <;>
    by_cases he : d.EqualsQualString "primary_email" = "" <;> simp [ho, he]

/-- C9 (as amended): every user-list call of `listDirectoryUsers` asks for
`MaxResults = m` with `m ≤ 100` and, when the query limit is below 100,
`m` equal to the query limit (the value is fixed when the hydrate starts and
is not lowered as rows are streamed); every list call of `listGroups` and of
`listGroupMembers` asks for the constant `MaxResults = 200`, whatever the row
budget is. -/
theorem C9_page_sizes (fuel : Nat) (svc : Service) (d : QueryData) (s : World) :
    (∃ new, (listDirectoryUsers fuel svc d s).1.calls = s.calls ++ new ∧
      ∀ c ∈ new, ∃ (req : UsersListCall) (m : Int), c = .usersList req ∧
        req.maxResults = some m ∧ m ≤ 100 ∧
        (∀ limit, d.Limit = some limit → limit < 100 → m = limit)) ∧
    (∃ new, (listGroups fuel svc d s).1.calls = s.calls ++ new ∧
      ∀ c ∈ new, ∃ req : GroupsListCall, c = .groupsList req ∧ req.maxResults = some 200) ∧
    (∃ new, (listGroupMembers fuel svc d s).1.calls = s.calls ++ new ∧
      ∀ c ∈ new, ∃ req : MembersListCall, c = .membersList req ∧ req.maxResults = some 200) := by
  refine ⟨?_, ?_, ?_⟩
  · simp only [listDirectoryUsers, AdminService]
    cases svc.adminService with
    | some err => exact ⟨[], by simp, by simp⟩
    | none =>
      obtain ⟨new, hnew, hall⟩ := Pages_calls svc fuel (listDirectoryUsersReq d)
        { s with credentialCalls := s.credentialCalls + 1 }
      refine ⟨new, ?_, fun c hc => ?_⟩
      · simp only
        split <;> next heq => rw [heq] at hnew; exact hnew
      · obtain ⟨token, rfl⟩ := hall c hc
        exact ⟨_, usersMaxResults d, rfl, listDirectoryUsersReq_maxResults d,
          usersMaxResults_le d, fun limit hl hlt => usersMaxResults_of_limit_lt d limit hl hlt⟩
  · simp only [listGroups, AdminService]
    cases svc.adminService with
    | some err => exact ⟨[], by simp, by simp⟩
    | none =>
      obtain ⟨new, hnew, hall⟩ := listGroupsLoop_calls svc fuel listGroupsReq
        { s with credentialCalls := s.credentialCalls + 1 }
      refine ⟨new, hnew, fun c hc => ?_⟩
      obtain ⟨token, rfl⟩ := hall c hc
      exact ⟨_, rfl, rfl⟩
  · simp only [listGroupMembers, AdminService]
    split
    · exact ⟨[], by simp, by simp⟩
    · cases svc.adminService with
      | some err => exact ⟨[], by simp, by simp⟩
      | none =>
        obtain ⟨new, hnew, hall⟩ := listGroupMembersLoop_calls svc
          (d.EqualsQualString "group_key") fuel (membersListReq (d.EqualsQualString "group_key"))
          { s with credentialCalls := s.credentialCalls + 1 }
        refine ⟨new, hnew, fun c hc => ?_⟩
        obtain ⟨token, rfl⟩ := hall c hc
        exact ⟨_, rfl, rfl⟩

theorem C9_page_sizes_witness :
    ∃ new, (listDirectoryUsers 2 twoPageUsers (limitQuery 1) (World.init (limitQuery 1))).1.calls
        = (World.init (limitQuery 1)).calls ++ new ∧
      ∀ c ∈ new, ∃ (req : UsersListCall) (m : Int), c = .usersList req ∧
        req.maxResults = some m ∧ m ≤ 100 ∧
        (∀ limit, (limitQuery 1).Limit = some limit → limit < 100 → m = limit) :=
  (C9_page_sizes 2 twoPageUsers (limitQuery 1) (World.init (limitQuery 1))).1

/-! ## A page-level failure -/

theorem listGroupsLoop_pages_then_error (svc : Service) (err : Err) (pages : List Groups)
    (fuel : Nat) (req : GroupsListCall) (s : World) (hunb : s.rowsRemaining = none)
    (h : GroupPagesThenError svc err s.calls.length req pages) (hfuel : pages.length < fuel) :
    (listGroupsLoop svc fuel req s).2 = some (none, some err) ∧
    (listGroupsLoop svc fuel req s).1.rows =
      s.rows ++ pages.flatMap (fun page => page.Groups.map Row.group) ∧
    (listGroupsLoop svc fuel req s).1.calls.length = s.calls.length + pages.length + 1 := by
  induction pages generalizing fuel req s with
  | nil =>
    obtain ⟨fuel, rfl⟩ : ∃ k, fuel = k + 1 := ⟨fuel - 1, by simp at hfuel; omega⟩
    simp only [GroupPagesThenError] at h
    simp [listGroupsLoop, h]
  | cons page rest ih =>
    obtain ⟨fuel, rfl⟩ : ∃ k, fuel = k + 1 := ⟨fuel - 1, by simp at hfuel; omega⟩
    obtain ⟨hpage, htoken, hrest⟩ := h
    simp only [listGroupsLoop, hpage]
    rw [streamRange_unbounded _ _ _ (by simpa using hunb)]
    simp only [if_neg htoken]
    obtain ⟨h1, h2, h3⟩ := ih fuel { req with pageToken := page.NextPageToken }
      { logCall s (.groupsList req) with
        rows := (logCall s (.groupsList req)).rows ++ page.Groups.map Row.group }
      (by simpa using hunb) (by simpa using hrest) (by simpa using hfuel)
    refine ⟨h1, ?_, ?_⟩
    · rw [h2]; simp
    · rw [h3]; simp; omega

theorem listGroupMembersLoop_pages_then_error (svc : Service) (groupKey : String) (err : Err)
    (pages : List Members) (fuel : Nat) (req : MembersListCall) (s : World)
    (hunb : s.rowsRemaining = none)
    (h : MemberPagesThenError svc err s.calls.length req pages) (hfuel : pages.length < fuel) :
    (listGroupMembersLoop svc groupKey fuel req s).2 = some (none, some err) ∧
    (listGroupMembersLoop svc groupKey fuel req s).1.rows =
      s.rows ++ pages.flatMap
        (fun page => page.Members.map (fun member => Row.member (memberWithGroup groupKey member))) ∧
    (listGroupMembersLoop svc groupKey fuel req s).1.calls.length =
      s.calls.length + pages.length + 1 := by
  induction pages generalizing fuel req s with
  | nil =>
    obtain ⟨fuel, rfl⟩ : ∃ k, fuel = k + 1 := ⟨fuel - 1, by simp at hfuel; omega⟩
    simp only [MemberPagesThenError] at h
    simp [listGroupMembersLoop, h]
  | cons page rest ih =>
    obtain ⟨fuel, rfl⟩ : ∃ k, fuel = k + 1 := ⟨fuel - 1, by simp at hfuel; omega⟩
    obtain ⟨hpage, htoken, hrest⟩ := h
    simp only [listGroupMembersLoop, hpage]
    rw [streamRange_unbounded _ _ _ (by simpa using hunb)]
    simp only [if_neg htoken]
    obtain ⟨h1, h2, h3⟩ := ih fuel { req with pageToken := page.NextPageToken }
      { logCall s (.membersList req) with
        rows := (logCall s (.membersList req)).rows ++
          page.Members.map (fun member => Row.member (memberWithGroup groupKey member)) }
      (by simpa using hunb) (by simpa using hrest) (by simpa using hfuel)
    refine ⟨h1, ?_, ?_⟩
    · rw [h2]; simp
    · rw [h3]; simp; omega

/-- C10: without a limit, when the first pages of `listGroups` (of
`listGroupMembers` with a non-empty `group_key`) are fetched successfully and
the next page fetch fails with `err`, the run returns, once it has fuel for
these fetches, exactly `(nil, err)`, and the sink holds what it held before
followed by the items of the successful pages in order (for members, joined
with the group key): nothing is retracted. The failing fetch is the last
remote call. -/
theorem C10_page_failure_keeps_rows_and_returns_error (svc : Service) (d : QueryData) (s : World)
    (err : Err) (hunb : s.rowsRemaining = none) (hcred : svc.adminService = none) :
    (∀ (pages : List Groups) (fuel : Nat),
      GroupPagesThenError svc err s.calls.length listGroupsReq pages → pages.length < fuel →
      (listGroups fuel svc d s).2 = some (none, some err) ∧
      (listGroups fuel svc d s).1.rows =
        s.rows ++ pages.flatMap (fun page => page.Groups.map Row.group) ∧
      (listGroups fuel svc d s).1.calls.length = s.calls.length + pages.length + 1) ∧
    (∀ (pages : List Members) (fuel : Nat), d.EqualsQualString "group_key" ≠ "" →
      MemberPagesThenError svc err s.calls.length
        (membersListReq (d.EqualsQualString "group_key")) pages → pages.length < fuel →
      (listGroupMembers fuel svc d s).2 = some (none, some err) ∧
      (listGroupMembers fuel svc d s).1.rows =
        s.rows ++ pages.flatMap (fun page => page.Members.map
          (fun member => Row.member (memberWithGroup (d.EqualsQualString "group_key") member))) ∧
      (listGroupMembers fuel svc d s).1.calls.length = s.calls.length + pages.length + 1) := by
  constructor
  · intro pages fuel hpages hfuel
    simp only [listGroups, AdminService, hcred]
    exact listGroupsLoop_pages_then_error svc err pages fuel listGroupsReq
      { s with credentialCalls := s.credentialCalls + 1 } hunb hpages hfuel
  · intro pages fuel hkey hpages hfuel
    simp only [listGroupMembers, AdminService, hcred, if_neg hkey]
    exact listGroupMembersLoop_pages_then_error svc (d.EqualsQualString "group_key") err pages
      fuel (membersListReq (d.EqualsQualString "group_key"))
      { s with credentialCalls := s.credentialCalls + 1 } hunb hpages hfuel

theorem C10_page_failure_keeps_rows_and_returns_error_witness :
    (World.init plainQuery).rowsRemaining = none ∧ groupsThenQuota.adminService = none ∧
    GroupPagesThenError groupsThenQuota "quota" (World.init plainQuery).calls.length
      listGroupsReq [groupsPage1] ∧
    (listGroups 2 groupsThenQuota plainQuery (World.init plainQuery)).2
      = some (none, some "quota") ∧
    (listGroups 2 groupsThenQuota plainQuery (World.init plainQuery)).1.rows =
      (World.init plainQuery).rows ++
        [groupsPage1].flatMap (fun page => page.Groups.map Row.group) ∧
    (listGroups 2 groupsThenQuota plainQuery (World.init plainQuery)).1.calls.length =
      (World.init plainQuery).calls.length + [groupsPage1].length + 1 :=
  ⟨rfl, rfl, ⟨rfl, by decide, rfl⟩,
   (C10_page_failure_keeps_rows_and_returns_error groupsThenQuota plainQuery
     (World.init plainQuery) "quota" rfl rfl).1 [groupsPage1] 2 ⟨rfl, by decide, rfl⟩
     (by decide)⟩

/-! ## Complete page chains -/

theorem groupPageRequests_succ (req : GroupsListCall) (pages : List Groups) (i : Nat)
    (h : i + 1 < pages.length) :
    (groupPageRequests req pages)[i + 1]? =
      (pages[i]?).map (fun page => { req with pageToken := page.NextPageToken }) := by
  induction pages generalizing req i with
  | nil => simp at h
  | cons page rest ih =>
    cases i with
    | zero =>
      cases rest with
      | nil => simp at h
      | cons next rest => simp [groupPageRequests]
    | succ i =>
      simp only [groupPageRequests, List.getElem?_cons_succ]
      exact ih { req with pageToken := page.NextPageToken } i (by simpa using h)

theorem memberPageRequests_succ (req : MembersListCall) (pages : List Members) (i : Nat)
    (h : i + 1 < pages.length) :
    (memberPageRequests req pages)[i + 1]? =
      (pages[i]?).map (fun page => { req with pageToken := page.NextPageToken }) := by
  induction pages generalizing req i with
  | nil => simp at h
  | cons page rest ih =>
    cases i with
    | zero =>
      cases rest with
      | nil => simp at h
      | cons next rest => simp [memberPageRequests]
    | succ i =>
      simp only [memberPageRequests, List.getElem?_cons_succ]
      exact ih { req with pageToken := page.NextPageToken } i (by simpa using h)

/-- C11: without a limit, on a chain of pages `P1..Pk` that are all fetched
successfully and of which `Pk` is the first with an empty continuation token,
`listGroups` (and `listGroupMembers` with a non-empty `group_key`) returns no
error, the sink receives its earlier rows followed by the items of
`P1 ++ ... ++ Pk` in order (members joined with the group key), and the remote
calls are the requests of `groupPageRequests` / `memberPageRequests`: request
number `i + 1` carries the continuation token returned by page number `i`. -/
theorem C11_unbounded_listing_emits_all_pages (svc : Service) (d : QueryData) (s : World)
    (hunb : s.rowsRemaining = none) (hcred : svc.adminService = none) :
    (∀ (pages : List Groups) (fuel : Nat), pages ≠ [] →
      GroupPagesComplete svc s.calls.length listGroupsReq pages → pages.length ≤ fuel →
      listGroups fuel svc d s =
        ({ credentialCalls := s.credentialCalls + 1
           calls := s.calls ++ (groupPageRequests listGroupsReq pages).map Call.groupsList
           rowsRemaining := none
           rows := s.rows ++ pages.flatMap (fun page => page.Groups.map Row.group) },
         some (none, none)) ∧
      ∀ i, i + 1 < pages.length →
        (groupPageRequests listGroupsReq pages)[i + 1]? =
          (pages[i]?).map (fun page => { listGroupsReq with pageToken := page.NextPageToken })) ∧
    (∀ (pages : List Members) (fuel : Nat), d.EqualsQualString "group_key" ≠ "" → pages ≠ [] →
      MemberPagesComplete svc s.calls.length
        (membersListReq (d.EqualsQualString "group_key")) pages → pages.length ≤ fuel →
      listGroupMembers fuel svc d s =
        ({ credentialCalls := s.credentialCalls + 1
           calls := s.calls ++
             (memberPageRequests (membersListReq (d.EqualsQualString "group_key")) pages).map
               Call.membersList
           rowsRemaining := none
           rows := s.rows ++ pages.flatMap (fun page => page.Members.map
             (fun member => Row.member (memberWithGroup (d.EqualsQualString "group_key") member))) },
         some (none, none)) ∧
      ∀ i, i + 1 < pages.length →
        (memberPageRequests (membersListReq (d.EqualsQualString "group_key")) pages)[i + 1]? =
          (pages[i]?).map (fun page =>
            { membersListReq (d.EqualsQualString "group_key") with
              pageToken := page.NextPageToken })) := by
  constructor
  · intro pages fuel hne hchain hfuel
    refine ⟨?_, fun i hi => groupPageRequests_succ listGroupsReq pages i hi⟩
    simp only [listGroups, AdminService, hcred]
    rw [listGroupsLoop_complete_unbounded svc pages fuel listGroupsReq
      { s with credentialCalls := s.credentialCalls + 1 } hunb hchain hne hfuel]
    simp [hunb]
  · intro pages fuel hkey hne hchain hfuel
    refine ⟨?_, fun i hi => memberPageRequests_succ _ pages i hi⟩
    simp only [listGroupMembers, AdminService, hcred, if_neg hkey]
    rw [listGroupMembersLoop_complete_unbounded svc (d.EqualsQualString "group_key") pages fuel
      (membersListReq (d.EqualsQualString "group_key"))
      { s with credentialCalls := s.credentialCalls + 1 } hunb hchain hne hfuel]
    simp [hunb]

theorem C11_unbounded_listing_emits_all_pages_witness :
    (World.init plainQuery).rowsRemaining = none ∧ groupsTwoPages.adminService = none ∧
    twoPages ≠ [] ∧
    GroupPagesComplete groupsTwoPages (World.init plainQuery).calls.length listGroupsReq
      twoPages ∧
    listGroups 2 groupsTwoPages plainQuery (World.init plainQuery) =
      ({ credentialCalls := 1
         calls := [.groupsList listGroupsReq,
                   .groupsList { listGroupsReq with pageToken := "p2" }]
         rowsRemaining := none
         rows := [.group { Id := "g1", Email := "g1@x.com", Name := "G1" },
                  .group { Id := "g2", Email := "g2@x.com", Name := "G2" },
                  .group { Id := "g3", Email := "g3@x.com", Name := "G3" }] },
       some (none, none)) :=
  ⟨rfl, rfl, by decide, ⟨rfl, by decide, rfl, by decide, trivial⟩,
   ((C11_unbounded_listing_emits_all_pages groupsTwoPages plainQuery (World.init plainQuery)
     rfl rfl).1 twoPages 2 (by decide) ⟨rfl, by decide, rfl, by decide, trivial⟩
     (by decide)).1⟩

/-! ## Complete page chains under a finite budget -/

theorem pagesNeeded_le (k : Nat) (sizes : List Nat) : pagesNeeded k sizes ≤ sizes.length := by
  induction sizes generalizing k with
  | nil => simp [pagesNeeded]
  | cons size rest ih =>
    simp only [pagesNeeded, List.length_cons]
    split
    · omega
    · have := ih (k - size)
      omega

/-- C12: with a finite budget of `k + 1` rows, on a chain of successfully
fetched pages that ends with the first empty continuation token, `listGroups`
(and `listGroupMembers` with a non-empty `group_key`) returns no error, and
the sink receives its earlier rows followed by exactly the first `k + 1` items
of the concatenation of the pages (all of them when there are fewer): that is
`min (k + 1) total` new rows. The remote calls are the requests of the first
`pagesNeeded` pages only: once the budget reaches zero inside a page, the rest
of that page is not emitted and no further page is requested. -/
theorem C12_finite_budget_takes_first_rows (svc : Service) (d : QueryData) (s : World) (k : Nat)
    (hs : s.rowsRemaining = some ((k : Int) + 1)) (hcred : svc.adminService = none) :
    (∀ (pages : List Groups) (fuel : Nat), pages ≠ [] →
      GroupPagesComplete svc s.calls.length listGroupsReq pages → pages.length ≤ fuel →
      (listGroups fuel svc d s).2 = some (none, none) ∧
      (listGroups fuel svc d s).1.rows =
        s.rows ++ (pages.flatMap (fun page => page.Groups.map Row.group)).take (k + 1) ∧
      (listGroups fuel svc d s).1.rows.length =
        s.rows.length +
          min (k + 1) (pages.flatMap (fun page => page.Groups.map Row.group)).length ∧
      (listGroups fuel svc d s).1.calls =
        s.calls ++ ((groupPageRequests listGroupsReq pages).take
          (pagesNeeded k (pages.map (fun page => page.Groups.length)))).map Call.groupsList) ∧
    (∀ (pages : List Members) (fuel : Nat), d.EqualsQualString "group_key" ≠ "" → pages ≠ [] →
      MemberPagesComplete svc s.calls.length
        (membersListReq (d.EqualsQualString "group_key")) pages → pages.length ≤ fuel →
      (listGroupMembers fuel svc d s).2 = some (none, none) ∧
      (listGroupMembers fuel svc d s).1.rows =
        s.rows ++ (pages.flatMap (fun page => page.Members.map
          (fun member => Row.member
            (memberWithGroup (d.EqualsQualString "group_key") member)))).take (k + 1) ∧
      (listGroupMembers fuel svc d s).1.rows.length =
        s.rows.length +
          min (k + 1) (pages.flatMap (fun page => page.Members.map
            (fun member => Row.member
              (memberWithGroup (d.EqualsQualString "group_key") member)))).length ∧
      (listGroupMembers fuel svc d s).1.calls =
        s.calls ++ ((memberPageRequests (membersListReq (d.EqualsQualString "group_key"))
          pages).take
            (pagesNeeded k (pages.map (fun page => page.Members.length)))).map
              Call.membersList) := by
  constructor
  · intro pages fuel hne hchain hfuel
    simp only [listGroups, AdminService, hcred]
    obtain ⟨h1, h2, h3⟩ := listGroupsLoop_complete_bounded svc pages fuel listGroupsReq
      { s with credentialCalls := s.credentialCalls + 1 } k hs hchain hne hfuel
    refine ⟨h1, h2, ?_, h3⟩
    rw [h2]
    simp [List.length_take]
  · intro pages fuel hkey hne hchain hfuel
    simp only [listGroupMembers, AdminService, hcred, if_neg hkey]
    obtain ⟨h1, h2, h3⟩ := listGroupMembersLoop_complete_bounded svc
      (d.EqualsQualString "group_key") pages fuel
      (membersListReq (d.EqualsQualString "group_key"))
      { s with credentialCalls := s.credentialCalls + 1 } k hs hchain hne hfuel
    refine ⟨h1, h2, ?_, h3⟩
    rw [h2]
    simp [List.length_take]

theorem C12_finite_budget_takes_first_rows_witness :
    (World.init (limitQuery 1)).rowsRemaining = some (((0 : Nat) : Int) + 1) ∧
    groupsTwoPages.adminService = none ∧
    (listGroups 2 groupsTwoPages (limitQuery 1) (World.init (limitQuery 1))).2
      = some (none, none) ∧
    (listGroups 2 groupsTwoPages (limitQuery 1) (World.init (limitQuery 1))).1.rows =
      (World.init (limitQuery 1)).rows ++
        (twoPages.flatMap (fun page => page.Groups.map Row.group)).take (0 + 1) ∧
    (listGroups 2 groupsTwoPages (limitQuery 1) (World.init (limitQuery 1))).1.rows.length =
      (World.init (limitQuery 1)).rows.length +
        min (0 + 1) (twoPages.flatMap (fun page => page.Groups.map Row.group)).length ∧
    (listGroups 2 groupsTwoPages (limitQuery 1) (World.init (limitQuery 1))).1.calls =
      (World.init (limitQuery 1)).calls ++ ((groupPageRequests listGroupsReq twoPages).take
        (pagesNeeded 0 (twoPages.map (fun page => page.Groups.length)))).map Call.groupsList :=
  ⟨rfl, rfl,
   (C12_finite_budget_takes_first_rows groupsTwoPages (limitQuery 1) (World.init (limitQuery 1)) 0
     rfl rfl).1 twoPages 2 (by decide) ⟨rfl, by decide, rfl, by decide, trivial⟩ (by decide)⟩

/-! ## Termination of the pagination loops -/

/-- C16: without a limit, on a page chain that reaches an empty continuation
token after `k` successful pages, the pagination of `listGroups` (and of
`listGroupMembers` with a non-empty `group_key`) returns for every fuel of at
least `k`, with the same result whatever the fuel, after exactly `k` remote
list calls; with less fuel than `k` it has not returned yet, so no page is
skipped and none is requested twice. -/
theorem C16_pagination_terminates_after_k_calls (svc : Service) (d : QueryData) (s : World)
    (hunb : s.rowsRemaining = none) (hcred : svc.adminService = none) :
    (∀ (pages : List Groups) (fuel : Nat), pages ≠ [] →
      GroupPagesComplete svc s.calls.length listGroupsReq pages →
      (pages.length ≤ fuel →
        (listGroups fuel svc d s).2 = some (none, none) ∧
        (listGroups fuel svc d s).1.calls.length = s.calls.length + pages.length ∧
        listGroups fuel svc d s = listGroups pages.length svc d s) ∧
      (fuel < pages.length → (listGroups fuel svc d s).2 = none)) ∧
    (∀ (pages : List Members) (fuel : Nat), d.EqualsQualString "group_key" ≠ "" → pages ≠ [] →
      MemberPagesComplete svc s.calls.length
        (membersListReq (d.EqualsQualString "group_key")) pages →
      (pages.length ≤ fuel →
        (listGroupMembers fuel svc d s).2 = some (none, none) ∧
        (listGroupMembers fuel svc d s).1.calls.length = s.calls.length + pages.length ∧
        listGroupMembers fuel svc d s = listGroupMembers pages.length svc d s) ∧
      (fuel < pages.length → (listGroupMembers fuel svc d s).2 = none)) := by
  have hlenG : ∀ (req : GroupsListCall) (pages : List Groups),
      (groupPageRequests req pages).length = pages.length := by
    intro req pages
    induction pages generalizing req with
    | nil => rfl
    | cons page rest ih => simp [groupPageRequests, ih]
  have hlenM : ∀ (req : MembersListCall) (pages : List Members),
      (memberPageRequests req pages).length = pages.length := by
    intro req pages
    induction pages generalizing req with
    | nil => rfl
    | cons page rest ih => simp [memberPageRequests, ih]
  constructor
  · intro pages fuel hne hchain
    constructor
    · intro hfuel
      simp only [listGroups, AdminService, hcred]
      rw [listGroupsLoop_complete_unbounded svc pages fuel listGroupsReq
          { s with credentialCalls := s.credentialCalls + 1 } hunb hchain hne hfuel,
        listGroupsLoop_complete_unbounded svc pages pages.length listGroupsReq
          { s with credentialCalls := s.credentialCalls + 1 } hunb hchain hne (le_refl _)]
      simp [hlenG]
    · intro hfuel
      simp only [listGroups, AdminService, hcred]
      exact listGroupsLoop_running svc pages fuel listGroupsReq
        { s with credentialCalls := s.credentialCalls + 1 } hunb hchain hfuel
  · intro pages fuel hkey hne hchain
    constructor
    · intro hfuel
      simp only [listGroupMembers, AdminService, hcred, if_neg hkey]
      rw [listGroupMembersLoop_complete_unbounded svc _ pages fuel _
          { s with credentialCalls := s.credentialCalls + 1 } hunb hchain hne hfuel,
        listGroupMembersLoop_complete_unbounded svc _ pages pages.length _
          { s with credentialCalls := s.credentialCalls + 1 } hunb hchain hne (le_refl _)]
      simp [hlenM]
    · intro hfuel
      simp only [listGroupMembers, AdminService, hcred, if_neg hkey]
      exact listGroupMembersLoop_running svc _ pages fuel _
        { s with credentialCalls := s.credentialCalls + 1 } hunb hchain hfuel

theorem C16_pagination_terminates_after_k_calls_witness :
    (World.init plainQuery).rowsRemaining = none ∧ groupsTwoPages.adminService = none ∧
    (listGroups 7 groupsTwoPages plainQuery (World.init plainQuery)).2 = some (none, none) ∧
    (listGroups 7 groupsTwoPages plainQuery (World.init plainQuery)).1.calls.length =
      (World.init plainQuery).calls.length + twoPages.length ∧
    listGroups 7 groupsTwoPages plainQuery (World.init plainQuery) =
      listGroups twoPages.length groupsTwoPages plainQuery (World.init plainQuery) :=
  ⟨rfl, rfl,
   ((C16_pagination_terminates_after_k_calls groupsTwoPages plainQuery (World.init plainQuery)
     rfl rfl).1 twoPages 7 (by decide) ⟨rfl, by decide, rfl, by decide, trivial⟩).1
     (by decide)⟩

/-! ## The token fan-out with a budget of one row -/

theorem listAllTokensLoop_of_zero (svc : Service) (users : List User) (s : World)
    (h : RowsRemaining s = 0) : listAllTokensLoop svc users s = s := by
  cases users with
  | nil => rfl
  | cons user rest => simp [listAllTokensLoop, h]

theorem listAllTokensLoop_budget_one (svc : Service) (pre : List User) (user : User)
    (post : List User) (s : World) (resp : Tokens) (token : Token) (more : List Token)
    (hs : s.rowsRemaining = some 1) (hpre : NoTokensFor svc s.calls.length pre)
    (hfetch : svc.tokensList (s.calls.length + pre.length) (tokensListReq user.PrimaryEmail)
      = .ok resp)
    (hitems : resp.Items = token :: more) :
    listAllTokensLoop svc (pre ++ user :: post) s =
      { s with
        calls := s.calls ++
          (pre ++ [user]).map (fun u => Call.tokensList (tokensListReq u.PrimaryEmail))
        rows := s.rows ++
          [Row.token (tokenWithUser user.PrimaryEmail user.PrimaryEmail token)]
        rowsRemaining := some 0 } := by
  have hne : ∀ w : World, w.rowsRemaining = some 1 → ¬ RowsRemaining w = 0 := by
    intro w hw
    rw [RowsRemaining_of_some hw]
    decide
  induction pre generalizing s with
  | nil =>
    simp only [List.length_nil, Nat.add_zero] at hfetch
    simp only [List.nil_append, listAllTokensLoop, if_neg (hne s hs), hfetch]
    rw [streamRange_bounded _ _ _ 0 (by simpa using hs), hitems]
    simp only [List.length_cons, Nat.zero_lt_succ, if_true, zero_add, List.take_succ_cons,
      List.take_zero, List.map_cons, List.map_nil]
    rw [listAllTokensLoop_of_zero _ _ _ (by simp [RowsRemaining])]
    simp
  | cons u pre ih =>
    obtain ⟨hu, hrest⟩ := hpre
    simp only [List.cons_append, listAllTokensLoop, if_neg (hne s hs), List.append_eq]
    have hidx : (logCall s (.tokensList (tokensListReq u.PrimaryEmail))).calls.length
        + pre.length = s.calls.length + (u :: pre).length := by
      simp
      omega
    cases hcall : svc.tokensList s.calls.length (tokensListReq u.PrimaryEmail) with
    | error err =>
      simp only
      rw [ih (logCall s (.tokensList (tokensListReq u.PrimaryEmail))) (by simpa using hs)
        (by simpa using hrest) (by rw [hidx]; exact hfetch)]
      simp
    | ok r =>
      simp only [hu r hcall, streamRange]
      rw [ih (logCall s (.tokensList (tokensListReq u.PrimaryEmail))) (by simpa using hs)
        (by simpa using hrest) (by rw [hidx]; exact hfetch)]
      simp

/-- C13: `listAllTokens` with a row budget of 1, on a user listing that
succeeds with the users `pre ++ user :: post`, where the token fetches of the
users in `pre` fail or return nothing and the fetch of `user` returns the
tokens `token :: more`: exactly one row is emitted, the join of `token` with
the primary email of `user`; the token fetches issued are those of `pre` and
of `user`, none for a user in `post`; and no error is returned. -/
theorem C13_budget_one_stops_fan_out (svc : Service) (d : QueryData) (s : World)
    (usersResp : Users) (pre : List User) (user : User) (post : List User) (resp : Tokens)
    (token : Token) (more : List Token)
    (hs : s.rowsRemaining = some 1) (hcred : svc.adminService = none)
    (husers : svc.usersList s.calls.length allUsersReq = .ok usersResp)
    (hsplit : usersResp.Users = pre ++ user :: post)
    (hpre : NoTokensFor svc (s.calls.length + 1) pre)
    (hfetch : svc.tokensList (s.calls.length + 1 + pre.length)
      (tokensListReq user.PrimaryEmail) = .ok resp)
    (hitems : resp.Items = token :: more) :
    listAllTokens svc d s =
      ({ credentialCalls := s.credentialCalls + 1
         calls := s.calls ++ Call.usersList allUsersReq ::
           (pre ++ [user]).map (fun u => Call.tokensList (tokensListReq u.PrimaryEmail))
         rowsRemaining := some 0
         rows := s.rows ++
           [Row.token (tokenWithUser user.PrimaryEmail user.PrimaryEmail token)] },
       some (none, none)) := by
  simp only [listAllTokens, AdminService, hcred, husers, hsplit]
  rw [listAllTokensLoop_budget_one svc pre user post _ resp token more (by simpa using hs)
    (by simpa using hpre) (by simpa using hfetch) hitems]
  simp

theorem C13_budget_one_stops_fan_out_witness :
    (World.init (limitQuery 1)).rowsRemaining = some 1 ∧
    listAllTokens threeUsers (limitQuery 1) (World.init (limitQuery 1)) =
      ({ credentialCalls := 1
         calls := [.usersList allUsersReq, .tokensList (tokensListReq "a@x.com"),
                   .tokensList (tokensListReq "b@x.com")]
         rowsRemaining := some 0
         rows := [.token (tokenWithUser "b@x.com" "b@x.com" token1)] },
       some (none, none)) :=
  ⟨rfl,
   C13_budget_one_stops_fan_out threeUsers (limitQuery 1) (World.init (limitQuery 1))
     { Users := [{ Id := "1", PrimaryEmail := "a@x.com" }, { Id := "2", PrimaryEmail := "b@x.com" },
                 { Id := "3", PrimaryEmail := "c@x.com" }],
       NextPageToken := "" }
     [{ Id := "1", PrimaryEmail := "a@x.com" }] { Id := "2", PrimaryEmail := "b@x.com" }
     [{ Id := "3", PrimaryEmail := "c@x.com" }]
     { Items := [token1, { token1 with ClientId := "c2" }] } token1
     [{ token1 with ClientId := "c2" }] rfl rfl rfl rfl
     ⟨fun resp h => by simp [threeUsers, tokensListReq] at h, trivial⟩ rfl rfl⟩

/-! ## Results of the get operations -/

/-- C14: a get operation called with all its key columns bound returns
exactly `(nil, e)` when the credential provider fails with `e` and when a
remote fetch it issues fails with `e` (for `getToken`, the token fetch or the
user fetch that follows it); when every call succeeds it returns the fetched
record (for members and tokens, the join record) and no error. -/
theorem C14_get_propagates_errors (svc : Service) (d : QueryData) (s : World) :
    (∀ (g : Getter) (e : Err), (∀ k ∈ g.KeyColumns, d.EqualsQualString k ≠ "") →
      svc.adminService = some e → (g.run svc d s).2 = (none, some e)) ∧
    (svc.adminService = none →
      (d.EqualsQualString "id" ≠ "" →
        match svc.groupsGet s.calls.length
            { groupKey := d.EqualsQualString "id", fields := groupGetFields } with
        | .error e => (Getter.run .getGroup svc d s).2 = (none, some e)
        | .ok group => (Getter.run .getGroup svc d s).2 = (some (.group group), none)) ∧
      (d.EqualsQualString "group_key" ≠ "" → d.EqualsQualString "member_key" ≠ "" →
        match svc.membersGet s.calls.length
            { groupKey := d.EqualsQualString "group_key"
              memberKey := d.EqualsQualString "member_key", fields := memberGetFields } with
        | .error e => (Getter.run .getGroupMember svc d s).2 = (none, some e)
        | .ok member =>
          (Getter.run .getGroupMember svc d s).2 =
            (some (.member (memberWithGroup (d.EqualsQualString "group_key") member)), none)) ∧
      (d.EqualsQualString "org_unit_path" ≠ "" →
        match svc.orgunitsGet s.calls.length
            { customerId := orgUnitCustomerId d
              orgUnitPath := d.EqualsQualString "org_unit_path", fields := orgUnitGetFields } with
        | .error e => (Getter.run .getOrgUnit svc d s).2 = (none, some e)
        | .ok orgUnit => (Getter.run .getOrgUnit svc d s).2 = (some (.orgUnit orgUnit), none)) ∧
      (d.EqualsQualString "user_key" ≠ "" → d.EqualsQualString "client_id" ≠ "" →
        match svc.tokensGet s.calls.length
            { userKey := d.EqualsQualString "user_key"
              clientId := d.EqualsQualString "client_id", fields := tokenGetFields } with
        | .error e => (Getter.run .getToken svc d s).2 = (none, some e)
        | .ok token =>
          match svc.usersGet (s.calls.length + 1)
              { userKey := d.EqualsQualString "user_key", fields := "primaryEmail" } with
          | .error e => (Getter.run .getToken svc d s).2 = (none, some e)
          | .ok user =>
            (Getter.run .getToken svc d s).2 =
              (some (.token
                (tokenWithUser (d.EqualsQualString "user_key") user.PrimaryEmail token)),
               none))) := by
  refine ⟨?_, fun hcred => ⟨?_, ?_, ?_, ?_⟩⟩
  · intro g e hkeys hcred
    cases g <;>
      simp only [Getter.KeyColumns, List.mem_cons, List.mem_singleton, List.not_mem_nil,
        or_false, forall_eq_or_imp, forall_eq] at hkeys
    · simp [Getter.run, getGroup, AdminService, hcred, hkeys]
    · simp [Getter.run, getGroupMember, AdminService, hcred, hkeys.1, hkeys.2]
    · simp [Getter.run, getOrgUnit, AdminService, hcred, hkeys]
    · simp [Getter.run, getToken, AdminService, hcred, hkeys.1, hkeys.2]
  · intro hkey
    simp only [Getter.run, getGroup, AdminService, hcred, if_neg hkey]
    split <;> next heq => simp [heq]
  · intro hgroup hmember
    simp only [Getter.run, getGroupMember, AdminService, hcred,
      if_neg (not_or.mpr ⟨hgroup, hmember⟩)]
    split <;> next heq => simp [heq]
  · intro hkey
    simp only [Getter.run, getOrgUnit, AdminService, hcred, if_neg hkey]
    split <;> next heq => simp [heq]
  · intro huser hclient
    simp only [Getter.run, getToken, AdminService, hcred,
      if_neg (not_or.mpr ⟨huser, hclient⟩)]
    split
    · next heq => simp [heq]
    · next token heq =>
      simp only [heq, logCall_calls, List.length_append, List.length_singleton]
      split <;> next heq2 => simp [heq2]

theorem C14_get_propagates_errors_witness :
    (∀ k ∈ Getter.KeyColumns .getToken, tokenQuery.EqualsQualString k ≠ "") ∧
    (Getter.run .getToken { tokenService with adminService := some "no credentials" } tokenQuery
      (World.init tokenQuery)).2 = (none, some "no credentials") :=
  ⟨by decide,
   (C14_get_propagates_errors { tokenService with adminService := some "no credentials" }
     tokenQuery (World.init tokenQuery)).1 .getToken "no credentials" (by decide) rfl⟩

/-! ## The page size of the user listing -/

/-- C15: every user-list call that `listDirectoryUsers` issues carries the
page size `usersMaxResults d`, which is 100 when the query has no limit or a
limit of at least 100, and the limit `L` itself when `L < 100`; so for every
`L ≥ 1` the page size lies between 1 and 100 and equals `min 100 L`. With
working credentials and fuel the first such call is issued. -/
theorem C15_users_page_size (fuel : Nat) (svc : Service) (d : QueryData) (s : World) :
    (∃ new, (listDirectoryUsers fuel svc d s).1.calls = s.calls ++ new ∧
      ∀ c ∈ new, ∃ req : UsersListCall,
        c = .usersList req ∧ req.maxResults = some (usersMaxResults d)) ∧
    (svc.adminService = none → 0 < fuel →
      ∃ rest, (listDirectoryUsers fuel svc d s).1.calls =
        s.calls ++ Call.usersList (listDirectoryUsersReq d) :: rest) ∧
    (listDirectoryUsersReq d).maxResults = some (usersMaxResults d) ∧
    (d.Limit = none → usersMaxResults d = 100) ∧
    (∀ L : Int, d.Limit = some L →
      (100 ≤ L → usersMaxResults d = 100) ∧
      (L < 100 → usersMaxResults d = L) ∧
      (1 ≤ L → 1 ≤ usersMaxResults d ∧ usersMaxResults d ≤ 100 ∧
        usersMaxResults d = min 100 L)) := by
  refine ⟨?_, ?_, listDirectoryUsersReq_maxResults d, ?_, ?_⟩
  · simp only [listDirectoryUsers, AdminService]
    cases svc.adminService with
    | some err => exact ⟨[], by simp, by simp⟩
    | none =>
      obtain ⟨new, hnew, hall⟩ := Pages_calls svc fuel (listDirectoryUsersReq d)
        { s with credentialCalls := s.credentialCalls + 1 }
      refine ⟨new, ?_, fun c hc => ?_⟩
      · simp only
        split <;> next heq => rw [heq] at hnew; exact hnew
      · obtain ⟨token, rfl⟩ := hall c hc
        exact ⟨_, rfl, listDirectoryUsersReq_maxResults d⟩
  · intro hcred hfuel
    obtain ⟨fuel, rfl⟩ : ∃ n, fuel = n + 1 := ⟨fuel - 1, by omega⟩
    have hfirst : ∃ rest,
        (UsersListCall.Pages svc listDirectoryUsersPage (fuel + 1) (listDirectoryUsersReq d)
          { s with credentialCalls := s.credentialCalls + 1 }).1.calls =
        s.calls ++ Call.usersList (listDirectoryUsersReq d) :: rest := by
      simp only [UsersListCall.Pages]
      split
      · exact ⟨[], rfl⟩
      · next x _ =>
        have hcalls := listDirectoryUsersPage_calls x
          (logCall { s with credentialCalls := s.credentialCalls + 1 }
            (.usersList (listDirectoryUsersReq d)))
        have hsnd := listDirectoryUsersPage_snd x
          (logCall { s with credentialCalls := s.credentialCalls + 1 }
            (.usersList (listDirectoryUsersReq d)))
        split
        · next s2 err heq => rw [heq] at hsnd; simp at hsnd
        · next s2 heq =>
          rw [heq] at hcalls
          simp only at hcalls
          split
          · exact ⟨[], hcalls⟩
          · obtain ⟨new, hnew, _⟩ := Pages_calls svc fuel
              { listDirectoryUsersReq d with pageToken := x.NextPageToken } s2
            exact ⟨new, by rw [hnew, hcalls]; simp⟩
    obtain ⟨rest, hrest⟩ := hfirst
    refine ⟨rest, ?_⟩
    simp only [listDirectoryUsers, AdminService, hcred]
    split <;> next heq => rw [heq] at hrest; exact hrest
  · intro hlimit
    simp [usersMaxResults, hlimit]
  · intro L hlimit
    refine ⟨fun h => ?_, fun h => ?_, fun h => ?_⟩
    · simp [usersMaxResults, hlimit, not_lt.mpr h]
    · simp [usersMaxResults, hlimit, h]
    · simp only [usersMaxResults, hlimit]
      split
      · next hlt => exact ⟨h, by omega, by rw [min_eq_right (by omega)]⟩
      · next hge => exact ⟨by decide, by decide, by rw [min_eq_left (by omega)]⟩

theorem C15_users_page_size_witness :
    emailFilter.Limit = some 10 ∧
    (listDirectoryUsers 1 unavailable emailFilter (World.init emailFilter)).1.calls =
      [.usersList { customer := "my_customer", fields := userListFields, maxResults := some 10,
                    query := some "email:a@x.com", pageToken := "" }] ∧
    usersMaxResults emailFilter = 10 ∧
    (1 ≤ usersMaxResults emailFilter ∧ usersMaxResults emailFilter ≤ 100 ∧
      usersMaxResults emailFilter = min 100 10) :=
  ⟨rfl, rfl,
   ((C15_users_page_size 1 unavailable emailFilter (World.init emailFilter)).2.2.2.2 10 rfl).2.1
     (by decide),
   ((C15_users_page_size 1 unavailable emailFilter (World.init emailFilter)).2.2.2.2 10 rfl).2.2
     (by decide)⟩

end GoogleWorkspace
